import Mathlib

/-!
# Page file (`page.c`, `page.h`): a shallow embedding

The page file turns an ordinary file into a sequence of 4096-byte pages.  Page 0 is the
header page (magic, page count, free-list head, metadata region); the other pages are data
pages, reclaimed pages being threaded on a free list through their first four bytes.

Modelling conventions

* A byte is a `Fin 256`; a buffer is a function from byte index to byte (only the indices
  below the buffer size are meaningful).
* `uint32_t`/`uint64_t` values are natural numbers, `int` values are integers; conversions
  and `int` arithmetic wrap modulo `2^32` explicitly (`toInt32`, `toUInt32`, `wrap32`).
* Multi-byte loads and stores through casted pointers are little-endian.
* `struct pf` lays `page` out directly after `hpage`; an access through a pointer derived
  from `hpage` that runs past its end lands in `page`.  An access outside these two buffers
  is undefined and modelled by `none`.
* The file behind the descriptor, the pending outcomes of the system calls and `errno` form
  the environment `Env`, which every operation threads through the handle.
* The handle argument is never `NULL`.
-/

namespace PageFile

/-! ## Bytes and buffers -/

/-- A byte, the C type `uint8_t`. -/
abbrev Byte := Fin 256

/-- A byte buffer, addressed by byte index. -/
abbrev Buf := Nat → Byte

/-- File magic signature. -/
def PFMAGIC : Nat := 0x70716580

/-- Page size in bytes (4 kb). -/
def PFPAGESZ : Nat := 4096

/-- File header size in bytes. -/
def PFHDRSZ : Nat := 32

/-- File metadata size in bytes. -/
def PFMETASZ : Nat := PFPAGESZ - PFHDRSZ

/-- The low byte of a number (conversion to `uint8_t`). -/
def byteOf (n : Nat) : Byte := ⟨n % 256, Nat.mod_lt n (by decide)⟩

/-- Little-endian load of `w` bytes of buffer `b` starting at index `i`. -/
def ld (b : Buf) (i : Nat) : Nat → Nat
  | 0 => 0
  | w + 1 => (b i).val + 256 * ld b (i + 1) w

/-- Little-endian store of the low `w` bytes of `v` into buffer `b` at index `i`. -/
def st (b : Buf) (i : Nat) (w : Nat) (v : Nat) : Buf :=
  fun j => if i ≤ j ∧ j < i + w then byteOf (v / 256 ^ (j - i)) else b j

/-- Conversion of a `uint32_t` to `int` (two's complement). -/
def toInt32 (n : Nat) : Int :=
  if n % 2 ^ 32 < 2 ^ 31 then ((n % 2 ^ 32 : Nat) : Int) else ((n % 2 ^ 32 : Nat) : Int) - 2 ^ 32

/-- Conversion of an `int` to `uint32_t`. -/
def toUInt32 (i : Int) : Nat := (i % 2 ^ 32).toNat

/-- The value of an `int` expression whose mathematical result is `x` (wrapping). -/
def wrap32 (x : Int) : Int := (x + 2 ^ 31) % 2 ^ 32 - 2 ^ 31

/-! ## The environment: file, system calls, errno -/

/-- The values of `errno` the model distinguishes; `E0` is "not set", `ESYS` stands for
whatever a failing system call reports. -/
inductive Errno where
  | E0
  | ENOMEM
  | EINVAL
  | EFTYPE
  | EBADF
  | ESYS
  deriving DecidableEq, Repr

/-- The environment of a handle: the regular file behind the descriptor (`size` bytes of
`data`, current offset `pos`), the scripted outcomes of the coming system calls
(`true` = the call fails) and the C variable `errno`. -/
structure Env where
  size : Nat
  data : Nat → Byte
  pos : Nat
  faults : List Bool
  errno : Errno

/-- Whether a fault script makes the next system call fail. -/
def fault : List Bool → Bool
  | [] => false
  | b :: _ => b

/-- The system call `lseek (fd, off, SEEK_SET)`: fails on a scripted fault or a negative
offset, otherwise sets the file offset and returns it. -/
def lseek (e : Env) (off : Int) : Int × Env :=
  if fault e.faults then
    (-1, { e with faults := e.faults.tail, errno := Errno.ESYS })
  else if off < 0 then
    (-1, { e with faults := e.faults.tail, errno := Errno.EINVAL })
  else
    (off, { e with faults := e.faults.tail, pos := off.toNat })

/-- The system call `read (fd, buf, n)` on a regular file: transfers the bytes between the
file offset and the end of the file, at most `n`, and returns their number. -/
def read (e : Env) (buf : Buf) (n : Nat) : Int × Buf × Env :=
  if fault e.faults then
    (-1, buf, { e with faults := e.faults.tail, errno := Errno.ESYS })
  else
    let k := min n (e.size - e.pos)
    ((k : Int), (fun i => if i < k then e.data (e.pos + i) else buf i),
      { e with faults := e.faults.tail, pos := e.pos + k })

/-- The system call `write (fd, buf, n)` on a regular file: stores `n` bytes at the file
offset, extending the file (a gap reads as zero bytes), and returns `n`. -/
def write (e : Env) (buf : Buf) (n : Nat) : Int × Env :=
  if fault e.faults then
    (-1, { e with faults := e.faults.tail, errno := Errno.ESYS })
  else
    ((n : Int),
      { e with
        faults := e.faults.tail
        data := fun j =>
          if e.pos ≤ j ∧ j < e.pos + n then buf (j - e.pos)
          else if j < e.size then e.data j else 0
        size := max e.size (e.pos + n)
        pos := e.pos + n })

/-- The system call `fstat (fd, &stat)`: returns the status and `st_size`. -/
def fstat (e : Env) (fd : Int) : Int × Nat × Env :=
  if fault e.faults then
    (-1, 0, { e with faults := e.faults.tail, errno := Errno.ESYS })
  else if fd < 0 then
    (-1, 0, { e with faults := e.faults.tail, errno := Errno.EBADF })
  else
    (0, e.size, { e with faults := e.faults.tail })

/-- The system call `close (fd)`; its result is ignored by the caller. -/
def close (e : Env) : Env :=
  if fault e.faults then
    { e with faults := e.faults.tail, errno := Errno.ESYS }
  else
    { e with faults := e.faults.tail }

/-! ## The handle -/

/-- The handle `struct pf`, together with the environment it operates on. -/
structure pf where
  fd : Int
  hpage : Buf
  page : Buf
  pageno : Int
  env : Env

/-- The assignment `errno = e`. -/
def seterrno (s : pf) (e : Errno) : pf := { s with env := { s.env with errno := e } }

/-- The magic signature bytes: `*((uint32_t *)pf->hpage)`. -/
def _hmagic (s : pf) : Nat := ld s.hpage 0 4

/-- The total number of pages: `*((uint32_t *)pf->hpage + 1)`. -/
def _npages (s : pf) : Nat := ld s.hpage 4 4

/-- The first page in the free pages list: `*((uint32_t *)pf->hpage + 2)`. -/
def _hfree (s : pf) : Nat := ld s.hpage 8 4

/-- The next free page in the free pages list: `*((uint32_t *)pf->page)`. -/
def _nextfree (s : pf) : Nat := ld s.page 0 4

/-- Assignment to `_hmagic (pf)`. -/
def set_hmagic (s : pf) (v : Nat) : pf := { s with hpage := st s.hpage 0 4 v }

/-- Assignment to `_npages (pf)`. -/
def set_npages (s : pf) (v : Nat) : pf := { s with hpage := st s.hpage 4 4 v }

/-- Assignment to `_hfree (pf)`. -/
def set_hfree (s : pf) (v : Nat) : pf := { s with hpage := st s.hpage 8 4 v }

/-- Assignment to `_nextfree (pf)`. -/
def set_nextfree (s : pf) (v : Nat) : pf := { s with page := st s.page 0 4 v }

/-- Read the current page: seek to `pf->pageno * PFPAGESZ` (an `int` product) and read
`PFPAGESZ` bytes into `pf->page`. -/
def _pread (s : pf) : Int × pf :=
  let r := lseek s.env (wrap32 (s.pageno * PFPAGESZ))
  if r.1 < 0 then (-1, { s with env := r.2 })
  else
    let q := read r.2 s.page PFPAGESZ
    if q.1 < 0 then (-1, { s with page := q.2.1, env := q.2.2 })
    else (0, { s with page := q.2.1, env := q.2.2 })

/-- Write the current page: seek to `pf->pageno * PFPAGESZ` (an `int` product) and write
the `PFPAGESZ` bytes of `pf->page`. -/
def _pwrite (s : pf) : Int × pf :=
  let r := lseek s.env (wrap32 (s.pageno * PFPAGESZ))
  if r.1 < 0 then (-1, { s with env := r.2 })
  else
    let q := write r.2 s.page PFPAGESZ
    if q.1 < 0 then (-1, { s with env := q.2 })
    else (0, { s with env := q.2 })

/-- Read the header page from offset 0 and check the magic signature. -/
def _hread (s : pf) : Int × pf :=
  let r := lseek s.env 0
  if r.1 < 0 then (-1, { s with env := r.2 })
  else
    let q := read r.2 s.hpage PFPAGESZ
    let s1 : pf := { s with hpage := q.2.1, env := q.2.2 }
    if q.1 < 0 then (-1, s1)
    else if _hmagic s1 ≠ PFMAGIC then (-1, seterrno s1 Errno.EFTYPE)
    else (0, s1)

/-- Write the header page at offset 0. -/
def _hwrite (s : pf) : Int × pf :=
  let r := lseek s.env 0
  if r.1 < 0 then (-1, { s with env := r.2 })
  else
    let q := write r.2 s.hpage PFPAGESZ
    if q.1 < 0 then (-1, { s with env := q.2 })
    else (0, { s with env := q.2 })

/-- The function `pf_close` on a non-null handle: closes the descriptor unless it is 0;
the result is the environment left behind. -/
def pf_close (s : pf) : Env :=
  if s.fd ≠ 0 then close s.env else s.env

/-- The function `pf_open`.  `mem` tells whether `malloc` succeeds, `fd` is the value
returned by `open (filename, O_RDWR | O_CREAT)` and `e` the environment with the file so
opened (of size 0 when it was just created).  The result is the handle, or `none` for
`NULL`, and the environment left behind when the call fails. -/
def pf_open (mem : Bool) (fd : Int) (e : Env) : Option pf × Env :=
  if mem = false then (none, { e with errno := Errno.ENOMEM })
  else
    let s0 : pf := { fd := fd, hpage := fun _ => 0, page := fun _ => 0, pageno := 0, env := e }
    if s0.fd = 0 then (none, pf_close s0)
    else
      let t := fstat s0.env s0.fd
      let s1 : pf := { s0 with env := t.2.2 }
      if t.1 ≠ 0 then (none, pf_close s1)
      else if t.2.1 = 0 then
        -- file is not empty, load file header
        let r := _hread s1
        if r.1 ≠ 0 then (none, pf_close r.2) else (some r.2, r.2.env)
      else
        -- otherwise, initialize a new pagefile
        let r := _hwrite (set_hmagic s1 PFMAGIC)
        if r.1 ≠ 0 then (none, pf_close r.2) else (some r.2, r.2.env)

/-- The function `pf_read`: the result is the returned pointer (`none` for `NULL`, else the
content of `pf->page` it points to) and the handle afterwards. -/
def pf_read (s : pf) (pageno : Int) : Option Buf × pf :=
  if pageno ≤ 0 then (none, seterrno s Errno.EINVAL)
  else
    let r := _pread { s with pageno := pageno }
    if r.1 ≠ 0 then (none, r.2) else (some r.2.page, r.2)

/-- The function `pf_write`. -/
def pf_write (s : pf) : Int × pf :=
  if s.pageno = 0 then (-1, seterrno s Errno.EINVAL)
  else _pwrite s

/-- The call `memset (buf, 0, PFPAGESZ)`. -/
def zeroed (b : Buf) : Buf := fun i => if i < PFPAGESZ then 0 else b i

/-- The statements of `pf_alloc` after its `if`/`else`: persist the header, zero the page
buffer and write it to the current page.  `pageno` is the value already stored in
`*pageno`. -/
def pf_alloc_finish (pageno : Int) (s : pf) : Option Buf × Int × pf :=
  let h := _hwrite s
  if h.1 ≠ 0 then (none, pageno, h.2)
  else
    let s2 : pf := { h.2 with page := zeroed h.2.page }
    let w := pf_write s2
    if w.1 ≠ 0 then (none, pageno, w.2) else (some w.2.page, pageno, w.2)

/-- The function `pf_alloc`: the result is the returned pointer (`none` for `NULL`, else
the content of `pf->page`), the value left in `*pageno`, and the handle afterwards. -/
def pf_alloc (s : pf) : Option Buf × Int × pf :=
  let pageno := toInt32 (_hfree s)
  if pageno ≠ 0 then
    let r := pf_read s pageno
    if r.1.isNone then (none, pageno, r.2)
    else pf_alloc_finish pageno (set_hfree r.2 (_nextfree r.2))
  else
    let pageno := toInt32 (_npages s)
    let s0 : pf := { s with pageno := pageno }
    pf_alloc_finish pageno (set_npages s0 (_npages s0 + 1))

/-- The function `pf_free`. -/
def pf_free (s : pf) : Int × pf :=
  if s.pageno = 0 then (-1, seterrno s Errno.EINVAL)
  else
    let s1 := set_nextfree s (_hfree s)
    let s2 := set_hfree s1 (toUInt32 s1.pageno)
    let w := _pwrite s2
    if w.1 ≠ 0 then (-1, w.2)
    else
      let h := _hwrite w.2
      if h.1 ≠ 0 then (-1, h.2)
      else (0, { h.2 with pageno := 0 })

/-! ## Typed metadata accessors -/

/-- The byte at address `pf->hpage + a`: inside `hpage`, or inside `page`, which
`struct pf` lays out directly after it; undefined elsewhere. -/
def peek (s : pf) (a : Int) : Option Byte :=
  if 0 ≤ a ∧ a < PFPAGESZ then some (s.hpage a.toNat)
  else if PFPAGESZ ≤ a ∧ a < 2 * PFPAGESZ then some (s.page (a - PFPAGESZ).toNat)
  else none

/-- Store of one byte at address `pf->hpage + a`. -/
def poke (s : pf) (a : Int) (v : Byte) : Option pf :=
  if 0 ≤ a ∧ a < PFPAGESZ then some { s with hpage := Function.update s.hpage a.toNat v }
  else if PFPAGESZ ≤ a ∧ a < 2 * PFPAGESZ then
    some { s with page := Function.update s.page (a - PFPAGESZ).toNat v }
  else none

/-- Little-endian load of `w` bytes at address `pf->hpage + a`. -/
def load (s : pf) (a : Int) : Nat → Option Nat
  | 0 => some 0
  | w + 1 =>
    match peek s a, load s (a + 1) w with
    | some b, some r => some (b.val + 256 * r)
    | _, _ => none

/-- Little-endian store of the low `w` bytes of `v` at address `pf->hpage + a`. -/
def store (s : pf) (a : Int) : Nat → Nat → Option pf
  | 0, _ => some s
  | w + 1, v =>
    match poke s a (byteOf v) with
    | some s1 => store s1 (a + 1) w (v / 256)
    | none => none

/-- The function `pfm_get_u64`; `p` is the pointer `pf->hpage + PFHDRSZ + off` as an
offset from `pf->hpage`.  The result is the returned value and the handle afterwards. -/
def pfm_get_u64 (s : pf) (off : Int) : Option (Nat × pf) :=
  let p : Int := PFHDRSZ + off
  if p + 8 > PFPAGESZ then some (2 ^ 64 - 1, seterrno s Errno.EINVAL)
  else (load s p 8).map fun v => (v, s)

/-- The function `pfm_get_u32`. -/
def pfm_get_u32 (s : pf) (off : Int) : Option (Nat × pf) :=
  let p : Int := PFHDRSZ + off
  if p + 4 > PFPAGESZ then some (2 ^ 32 - 1, seterrno s Errno.EINVAL)
  else (load s p 4).map fun v => (v, s)

/-- The function `pfm_get_u16`. -/
def pfm_get_u16 (s : pf) (off : Int) : Option (Nat × pf) :=
  let p : Int := PFHDRSZ + off
  if p + 2 > PFPAGESZ then some (2 ^ 16 - 1, seterrno s Errno.EINVAL)
  else (load s p 2).map fun v => (v, s)

/-- The function `pfm_get_u8`. -/
def pfm_get_u8 (s : pf) (off : Int) : Option (Nat × pf) :=
  let p : Int := PFHDRSZ + off
  if p + 1 > PFPAGESZ then some (2 ^ 8 - 1, seterrno s Errno.EINVAL)
  else (load s p 1).map fun v => (v, s)

/-- The function `pfm_set_u64`.  The result is the returned status and the handle
afterwards. -/
def pfm_set_u64 (s : pf) (off : Int) (val : Nat) : Option (Int × pf) :=
  let p : Int := PFHDRSZ + off
  if p + 8 > PFPAGESZ then some (-1, seterrno s Errno.EINVAL)
  else (store s p 8 val).map _hwrite

/-- The function `pfm_set_u32`. -/
def pfm_set_u32 (s : pf) (off : Int) (val : Nat) : Option (Int × pf) :=
  let p : Int := PFHDRSZ + off
  if p + 4 > PFPAGESZ then some (-1, seterrno s Errno.EINVAL)
  else (store s p 4 val).map _hwrite

/-- The function `pfm_set_u16`. -/
def pfm_set_u16 (s : pf) (off : Int) (val : Nat) : Option (Int × pf) :=
  let p : Int := PFHDRSZ + off
  if p + 2 > PFPAGESZ then some (-1, seterrno s Errno.EINVAL)
  else (store s p 2 val).map _hwrite

/-- The function `pfm_set_u8`; its bounds check compares `p + sizeof (uint8_t)` with
`p + PFPAGESZ`. -/
def pfm_set_u8 (s : pf) (off : Int) (val : Nat) : Option (Int × pf) :=
  let p : Int := PFHDRSZ + off
  if p + 1 > p + PFPAGESZ then some (-1, seterrno s Errno.EINVAL)
  else (store s p 1 val).map _hwrite

/-! ## Auxiliary notions used in the statements -/

/-- The next `n` system calls of a fault script all succeed. -/
def quiet : List Bool → Nat → Bool
  | _, 0 => true
  | [], _ => true
  | b :: t, n + 1 => !b && quiet t n

/-- The environment after a successful `lseek` to offset `o` followed by a successful
`write` of the `PFPAGESZ` bytes of `b`. -/
def Env.wrote (e : Env) (o : Nat) (b : Buf) : Env :=
  { e with
    faults := e.faults.tail.tail
    data := fun j =>
      if o ≤ j ∧ j < o + PFPAGESZ then b (j - o)
      else if j < e.size then e.data j else 0
    size := max e.size (o + PFPAGESZ)
    pos := o + PFPAGESZ }

/-- The environment after a successful `lseek` to offset `o` followed by a successful
`read` of up to `PFPAGESZ` bytes. -/
def Env.readAt (e : Env) (o : Nat) : Env :=
  { e with faults := e.faults.tail.tail, pos := o + min PFPAGESZ (e.size - o) }

/-- The buffer `b` after a `read` of up to `PFPAGESZ` bytes at file offset `o`. -/
def Env.fill (e : Env) (o : Nat) (b : Buf) : Buf :=
  fun i => if i < min PFPAGESZ (e.size - o) then e.data (o + i) else b i

/-- The file offset of page `p` as `_pread` and `_pwrite` compute it. -/
def pageOff (p : Int) : Int := wrap32 (p * PFPAGESZ)

/-- The free-list link stored in page `p` of the file: the `uint32_t` at file offset
`p * PFPAGESZ`. -/
def link (e : Env) (p : Nat) : Nat := ld e.data (p * PFPAGESZ) 4

/-- The pages `l` are the free list of the file starting at head `h`: each page is
non-zero, lies wholly inside the file, and its link leads to the next one; the last link
is 0. -/
def FreeChain (e : Env) : Nat → List Nat → Prop
  | h, [] => h = 0
  | h, p :: l => h = p ∧ p ≠ 0 ∧ p * PFPAGESZ + PFPAGESZ ≤ e.size ∧ FreeChain e (link e p) l

/-- The states reachable from `s0` by successful calls, with the list of currently
allocated pages (returned by `pf_alloc` and not freed since).  `pf_read`, `pf_write` and
`pf_free` are applied to currently allocated pages only; between calls the caller may
change the page buffer it was handed (`edit`). -/
inductive Reach (s0 : pf) : pf → List Int → Prop
  | init : Reach s0 s0 []
  | edit (s : pf) (A : List Int) (b : Buf) : Reach s0 s A → Reach s0 { s with page := b } A
  | alloc (s : pf) (A : List Int) : Reach s0 s A → (pf_alloc s).1.isSome = true →
      Reach s0 (pf_alloc s).2.2 ((pf_alloc s).2.1 :: A)
  | read (s : pf) (A : List Int) (p : Int) : Reach s0 s A → p ∈ A →
      (pf_read s p).1.isSome = true → Reach s0 (pf_read s p).2 A
  | write (s : pf) (A : List Int) : Reach s0 s A → s.pageno ∈ A →
      (pf_write s).1 = 0 → Reach s0 (pf_write s).2 A
  | free (s : pf) (A : List Int) : Reach s0 s A → s.pageno ∈ A →
      (pf_free s).1 = 0 → Reach s0 (pf_free s).2 (A.filter fun a => a ≠ s.pageno)

/-- The invariant behind allocation uniqueness: the page count is at most `2^19` (so page
offsets do not overflow), allocated pages lie in `[1, page_count)`, and the free list is a
duplicate-free chain of pages in `[1, page_count)` none of which is allocated. -/
def AllocInv (s : pf) (A : List Int) : Prop :=
  _npages s ≤ 2 ^ 19 ∧ (∀ a ∈ A, 1 ≤ a ∧ a < (_npages s : Int)) ∧
    ∃ L : List Nat, FreeChain s.env (_hfree s) L ∧ L.Nodup ∧
      ∀ p ∈ L, p < _npages s ∧ (p : Int) ∉ A

/-! ## Concrete states -/

/-- An empty file, as `open` with `O_CREAT` has just created it; no system call fails. -/
def emptyFile : Env :=
  { size := 0, data := fun _ => 0, pos := 0, faults := [], errno := Errno.E0 }

/-- The header page of a freshly initialized page file: the magic signature, page count 0,
free-list head 0, zero metadata. -/
def freshHeader : Buf := st (fun _ => 0) 0 4 PFMAGIC

/-- A freshly initialized page file: the fresh header in memory and as page 0 of the file,
a zeroed page buffer, no page resident, no system call failing. -/
def fresh : pf :=
  { fd := 3
    hpage := freshHeader
    page := fun _ => 0
    pageno := 0
    env :=
      { size := PFPAGESZ
        data := fun j => if j < PFPAGESZ then freshHeader j else 0
        pos := PFPAGESZ
        faults := []
        errno := Errno.E0 } }

/-- A handle over an empty file with page 1 resident and the page buffer filled with the
byte 7. -/
def sevens : pf :=
  { fd := 3, hpage := freshHeader, page := fun _ => 7, pageno := 1, env := emptyFile }

/-- The freshly initialized page file after its first call of `pf_alloc` (which fails and
leaves the page count at 1). -/
def primed : pf := (pf_alloc fresh).2.2

/-- The page file `primed` after page 1 was allocated and freed again: the free list
holds page 1. -/
def freedOne : pf := (pf_free (pf_alloc primed).2.2).2

/-- An existing 8-byte file that is not a page file: every byte is `0x41`. -/
def junkFile : Env :=
  { size := 8, data := fun _ => 0x41, pos := 0, faults := [], errno := Errno.E0 }

/-- A handle whose header records page count `2^20 + 2` and free-list head 5, with no page
resident, over a file of `2^31` zero bytes. -/
def lifoStart : pf :=
  { fd := 3
    hpage := st (st freshHeader 4 4 1048578) 8 4 5
    page := fun _ => 0
    pageno := 0
    env := { size := 2 ^ 31, data := fun _ => 0, pos := 0, faults := [],
             errno := Errno.E0 } }

/-- The handle `lifoStart` after page 1 was read and freed and then page `2^20 + 1` was
read and freed. -/
def lifoFreed : pf := (pf_free (pf_read (pf_free (pf_read lifoStart 1).2).2 1048577).2).2

/-- The page file `primed` after two allocations: pages 1 and 2 are allocated and page 2
is resident. -/
def twoPages : pf := (pf_alloc (pf_alloc primed).2.2).2.2

/-- The page file `twoPages` after page 1 was read and freed: page 2 is allocated and the
free list holds page 1. -/
def oneFreed : pf := (pf_free (pf_read twoPages 1).2).2

/-- The handle `t` differs from `s` in `errno` at most: descriptor, both buffers, resident
page number and the file (content, size, offset, pending system calls) are the same. -/
def Untouched (s t : pf) : Prop :=
  t.fd = s.fd ∧ t.hpage = s.hpage ∧ t.page = s.page ∧ t.pageno = s.pageno ∧
    t.env.size = s.env.size ∧ t.env.data = s.env.data ∧ t.env.pos = s.env.pos ∧
    t.env.faults = s.env.faults

/-- The page file `oneFreed` after the value `0x12345678` was stored at metadata offset 0
with `pfm_set_u32`. -/
def withMeta : pf := ((pfm_set_u32 oneFreed 0 305419896).map Prod.snd).getD oneFreed

/-- A handle whose header records the largest page count, `2^32 - 1`, with an empty free
list. -/
def fullCount : pf := { fresh with hpage := st freshHeader 4 4 (2 ^ 32 - 1) }

/-- The handle `sevens` with page `2^20 + 1` resident instead of page 1. -/
def sevensFar : pf := { sevens with pageno := 1048577 }

/-- The handle `sevens` (page 1 resident) when the next system call is going to fail. -/
def sevensFault : pf := { sevens with env := { emptyFile with faults := [true] } }

/-- The handle `lifoStart` (free-list head 5) with page `2^20` resident and the page
buffer filled with the byte 7. -/
def freeFar : pf := { lifoStart with pageno := 1048576, page := fun _ => 7 }

/-- Free-list well-formedness: following the links stored in the file from the free-list
head reaches 0 after finitely many pages, without visiting a page twice, and every
visited page lies in `[1, page_count)` (and inside the file). -/
def WellFormed (s : pf) : Prop :=
  ∃ L : List Nat, FreeChain s.env (_hfree s) L ∧ L.Nodup ∧ ∀ p ∈ L, p < _npages s

/-- A handle whose header records page count `2^20 + 2` and free-list head 1, over a file
of `2^31` zero bytes: the free list is the single page 1. -/
def wfStart : pf :=
  { fd := 3
    hpage := st (st freshHeader 4 4 1048578) 8 4 1
    page := fun _ => 0
    pageno := 0
    env := { size := 2 ^ 31, data := fun _ => 0, pos := 0, faults := [],
             errno := Errno.E0 } }

/-- The handle `wfStart` after `pf_read` made page `2^20 + 1` resident. -/
def wfResident : pf := (pf_read wfStart 1048577).2

/-- The handle after page `p` was read and freed, and then read and freed again. -/
def doubleFreed (s : pf) (p : Int) : pf :=
  (pf_free (pf_read (pf_free (pf_read s p).2).2 p).2).2

/-- A page file whose header records page count `2^20` with an empty free list; the file
holds the header page only. -/
def bigCount : pf := { fresh with hpage := st freshHeader 4 4 1048576 }

/-! ## Properties -/

/-! ### Bytes, loads and stores -/

theorem byteOf_val (n : Nat) : (byteOf n).val = n % 256 := rfl

theorem ld_lt (b : Buf) (i w : Nat) : ld b i w < 256 ^ w := by
  induction w generalizing i with
  | zero => simp [ld]
  | succ w ih =>
    have h1 := ih (i + 1)
    have h2 : (b i).val < 256 := (b i).isLt
    simp only [ld, pow_succ]
    omega

theorem ld_congr (b c : Buf) (i w : Nat) (h : ∀ j, i ≤ j → j < i + w → b j = c j) :
    ld b i w = ld c i w := by
  induction w generalizing i with
  | zero => simp [ld]
  | succ w ih =>
    simp only [ld]
    rw [h i (le_refl i) (by omega), ih (i + 1) (fun j h1 h2 => h j (by omega) (by omega))]

theorem st_of_lt (b : Buf) (i w v j : Nat) (h : j < i) : st b i w v j = b j := by
  simp only [st]; rw [if_neg]; omega

theorem st_of_ge (b : Buf) (i w v j : Nat) (h : i + w ≤ j) : st b i w v j = b j := by
  simp only [st]; rw [if_neg]; omega

theorem st_of_mem (b : Buf) (i w v j : Nat) (h1 : i ≤ j) (h2 : j < i + w) :
    st b i w v j = byteOf (v / 256 ^ (j - i)) := by
  simp only [st]; rw [if_pos]; exact ⟨h1, h2⟩

theorem ld_st_other (b : Buf) (i w v j u : Nat) (h : j + u ≤ i ∨ i + w ≤ j) :
    ld (st b i w v) j u = ld b j u := by
  apply ld_congr
  intro k h1 h2
  rcases h with h | h
  · exact st_of_lt b i w v k (by omega)
  · exact st_of_ge b i w v k (by omega)

theorem ld_st_same (b : Buf) (i w v : Nat) : ld (st b i w v) i w = v % 256 ^ w := by
  induction w generalizing i v with
  | zero => simp [ld, Nat.mod_one]
  | succ w ih =>
    simp only [ld]
    have h1 : ld (st b i (w + 1) v) (i + 1) w = ld (st b (i + 1) w (v / 256)) (i + 1) w := by
      apply ld_congr
      intro j hj1 hj2
      rw [st_of_mem b i (w + 1) v j (by omega) (by omega),
        st_of_mem b (i + 1) w (v / 256) j hj1 hj2]
      have : j - i = (j - (i + 1)) + 1 := by omega
      rw [this, pow_succ, Nat.mul_comm, Nat.div_div_eq_div_mul]
    rw [h1, ih, st_of_mem b i (w + 1) v i (le_refl i) (by omega)]
    simp only [Nat.sub_self, pow_zero, Nat.div_one, byteOf_val, pow_succ]
    rw [Nat.mul_comm (256 ^ w) 256, Nat.mod_mul]

theorem toInt32_of_lt (n : Nat) (h : n < 2 ^ 31) : toInt32 n = n := by
  unfold toInt32
  have : n % 2 ^ 32 = n := Nat.mod_eq_of_lt (by omega)
  rw [this, if_pos h]

theorem wrap32_of_range (x : Int) (h1 : -2 ^ 31 ≤ x) (h2 : x < 2 ^ 31) : wrap32 x = x := by
  unfold wrap32
  omega

theorem toUInt32_of_range (x : Int) (h1 : 0 ≤ x) (h2 : x < 2 ^ 32) : toUInt32 x = x.toNat := by
  unfold toUInt32
  congr 1
  omega

/-! ### System calls and page transfers -/

theorem quiet_two (l : List Bool) :
    quiet l 2 = true ↔ fault l = false ∧ fault l.tail = false := by
  cases l with
  | nil => simp [quiet, fault]
  | cons b t =>
    cases t with
    | nil => cases b <;> simp [quiet, fault]
    | cons c u => cases b <;> cases c <;> simp [quiet, fault]

theorem _pwrite_eq (s : pf) (h0 : 0 ≤ pageOff s.pageno) (hq : quiet s.env.faults 2 = true) :
    _pwrite s = (0, { s with env := s.env.wrote (pageOff s.pageno).toNat s.page }) := by
  obtain ⟨q1, q2⟩ := (quiet_two _).1 hq
  have h0' : ¬ wrap32 (s.pageno * PFPAGESZ) < 0 := not_lt.mpr h0
  simp [_pwrite, lseek, write, q1, q2, h0', Env.wrote, pageOff]

theorem _pwrite_ok (s : pf) (h : (_pwrite s).1 = 0) :
    0 ≤ pageOff s.pageno ∧ quiet s.env.faults 2 = true := by
  rw [quiet_two]
  unfold pageOff
  by_cases q1 : fault s.env.faults = true
  · simp [_pwrite, lseek, write, q1] at h
  · by_cases h0 : wrap32 (s.pageno * PFPAGESZ) < 0
    · simp [_pwrite, lseek, write, q1, h0] at h
    · by_cases q2 : fault s.env.faults.tail = true
      · simp [_pwrite, lseek, write, q1, h0, q2] at h
      · simp at q1 q2
        exact ⟨not_lt.mp h0, q1, q2⟩

theorem _hwrite_eq (s : pf) (hq : quiet s.env.faults 2 = true) :
    _hwrite s = (0, { s with env := s.env.wrote 0 s.hpage }) := by
  obtain ⟨q1, q2⟩ := (quiet_two _).1 hq
  simp [_hwrite, lseek, write, q1, q2, Env.wrote]

theorem _hwrite_ok (s : pf) (h : (_hwrite s).1 = 0) : quiet s.env.faults 2 = true := by
  rw [quiet_two]
  by_cases q1 : fault s.env.faults = true
  · simp [_hwrite, lseek, write, q1] at h
  · by_cases q2 : fault s.env.faults.tail = true
    · simp [_hwrite, lseek, write, q1, q2] at h
    · simp at q1 q2
      exact ⟨q1, q2⟩

theorem _pread_eq (s : pf) (h0 : 0 ≤ pageOff s.pageno) (hq : quiet s.env.faults 2 = true) :
    _pread s = (0, { s with page := s.env.fill (pageOff s.pageno).toNat s.page,
                            env := s.env.readAt (pageOff s.pageno).toNat }) := by
  obtain ⟨q1, q2⟩ := (quiet_two _).1 hq
  have h0' : ¬ wrap32 (s.pageno * PFPAGESZ) < 0 := not_lt.mpr h0
  simp only [_pread, lseek, read, q1, q2, h0', Env.readAt, pageOff, Bool.false_eq_true,
    if_false]
  rw [if_neg (by omega)]
  rfl

theorem _pread_ok (s : pf) (h : (_pread s).1 = 0) :
    0 ≤ pageOff s.pageno ∧ quiet s.env.faults 2 = true := by
  rw [quiet_two]
  unfold pageOff
  by_cases q1 : fault s.env.faults = true
  · simp [_pread, lseek, read, q1] at h
  · by_cases h0 : wrap32 (s.pageno * PFPAGESZ) < 0
    · simp [_pread, lseek, read, q1, h0] at h
    · by_cases q2 : fault s.env.faults.tail = true
      · simp [_pread, lseek, read, q1, h0, q2] at h
      · simp at q1 q2
        exact ⟨not_lt.mp h0, q1, q2⟩

theorem _pread_file (s : pf) :
    (_pread s).2.env.data = s.env.data ∧ (_pread s).2.env.size = s.env.size := by
  by_cases q1 : fault s.env.faults = true
  · simp [_pread, lseek, read, q1]
  · by_cases h0 : wrap32 (s.pageno * PFPAGESZ) < 0
    · simp [_pread, lseek, read, q1, h0]
    · by_cases q2 : fault s.env.faults.tail = true
      · simp [_pread, lseek, read, q1, h0, q2]
      · simp only [_pread, lseek, read, q1, h0, q2, if_false]
        split <;> exact ⟨rfl, rfl⟩

theorem pf_read_file (s : pf) (q : Int) :
    (pf_read s q).2.env.data = s.env.data ∧ (pf_read s q).2.env.size = s.env.size := by
  unfold pf_read
  by_cases hq : q ≤ 0
  · simp [hq, seterrno]
  · simp only [hq, if_false]
    have := _pread_file { s with pageno := q }
    split <;> exact this

theorem pf_read_back (t : pf) (p : Int) (b : Buf) (hp : 0 < p) (h0 : 0 ≤ pageOff p)
    (hsz : (pageOff p).toNat + PFPAGESZ ≤ t.env.size)
    (hd : ∀ i, i < PFPAGESZ → t.env.data ((pageOff p).toNat + i) = b i)
    (hq : quiet t.env.faults 2 = true) :
    ∃ c, (pf_read t p).1 = some c ∧ (∀ i, i < PFPAGESZ → c i = b i) ∧
      (pf_read t p).2.page = c ∧ (pf_read t p).2.pageno = p := by
  unfold pf_read
  rw [if_neg (not_le.mpr hp)]
  have e := _pread_eq { t with pageno := p } h0 hq
  simp only [e]
  refine ⟨_, rfl, ?_, rfl, rfl⟩
  intro i hi
  simp only [Env.fill]
  rw [if_pos]
  · exact hd i hi
  · have : PFPAGESZ ≤ t.env.size - (pageOff p).toNat := by omega
    rw [min_eq_left this]; exact hi

/-! ### Claims C1 and C2 -/

/-- Claim C1 (page round trip): when a page `p > 0` is resident with any buffer content
and `pf_write` succeeds, a following `pf_read` of `p` whose two system calls do not fail
returns a buffer equal to the written content on all `PFPAGESZ` bytes and leaves `p`
resident; the same holds after an intervening `pf_read` of any page `q > 0`, whether that
read succeeds or not. -/
theorem pf_write_read_roundtrip (s : pf) (hp : 0 < s.pageno) (hw : (pf_write s).1 = 0) :
    (quiet (pf_write s).2.env.faults 2 = true →
      ∃ c, (pf_read (pf_write s).2 s.pageno).1 = some c ∧
        (∀ i, i < PFPAGESZ → c i = s.page i) ∧
        (pf_read (pf_write s).2 s.pageno).2.page = c ∧
        (pf_read (pf_write s).2 s.pageno).2.pageno = s.pageno) ∧
    (∀ q : Int, 0 < q → quiet (pf_read (pf_write s).2 q).2.env.faults 2 = true →
      ∃ c, (pf_read (pf_read (pf_write s).2 q).2 s.pageno).1 = some c ∧
        (∀ i, i < PFPAGESZ → c i = s.page i) ∧
        (pf_read (pf_read (pf_write s).2 q).2 s.pageno).2.page = c ∧
        (pf_read (pf_read (pf_write s).2 q).2 s.pageno).2.pageno = s.pageno) := by
  have hne : ¬ s.pageno = 0 := by omega
  have hpw : pf_write s = _pwrite s := by unfold pf_write; rw [if_neg hne]
  rw [hpw] at hw ⊢
  obtain ⟨h0, hq⟩ := _pwrite_ok s hw
  rw [_pwrite_eq s h0 hq]
  have hsz : (pageOff s.pageno).toNat + PFPAGESZ ≤
      (s.env.wrote (pageOff s.pageno).toNat s.page).size := by
    simp only [Env.wrote]; exact le_max_right _ _
  have hd : ∀ i, i < PFPAGESZ →
      (s.env.wrote (pageOff s.pageno).toNat s.page).data ((pageOff s.pageno).toNat + i)
        = s.page i := by
    intro i hi
    simp only [Env.wrote]
    rw [if_pos ⟨by omega, by omega⟩]
    congr 1; omega
  constructor
  · intro hq2
    exact pf_read_back _ s.pageno s.page hp h0 hsz hd hq2
  · intro q _ hq2
    have hf := pf_read_file { s with env := s.env.wrote (pageOff s.pageno).toNat s.page } q
    apply pf_read_back _ s.pageno s.page hp h0 _ _ hq2
    · rw [hf.2]; exact hsz
    · intro i hi; rw [hf.1]; exact hd i hi

/-- Witness for C1: page 1 written with sevens over an empty file is read back as sevens,
directly and after an intervening read of page 2. -/
theorem pf_write_read_roundtrip_witness :
    (∃ c, (pf_read (pf_write sevens).2 1).1 = some c ∧ c 5 = 7) ∧
    (∃ c, (pf_read (pf_read (pf_write sevens).2 2).2 1).1 = some c ∧ c 4095 = 7) := by
  have h := pf_write_read_roundtrip sevens (by decide) (by decide)
  constructor
  · obtain ⟨c, h1, h2, _⟩ := h.1 (by decide)
    exact ⟨c, h1, h2 5 (by decide)⟩
  · obtain ⟨c, h1, h2, _⟩ := h.2 2 (by decide) (by decide)
    exact ⟨c, h1, h2 4095 (by decide)⟩

/-- Claim C2, evaluated on a freshly initialized page file: the first `pf_alloc` sets the
current page number to the page count 0, raises the page count to 1, and returns `NULL`
because `pf_write` rejects page number 0 with `EINVAL`; only the second call succeeds,
with page number 1. -/
theorem pf_alloc_fresh_first_fails :
    _hmagic fresh = PFMAGIC ∧ _npages fresh = 0 ∧ _hfree fresh = 0 ∧
    (pf_alloc fresh).1.isSome = false ∧ (pf_alloc fresh).2.1 = 0 ∧
    _npages (pf_alloc fresh).2.2 = 1 ∧ (pf_alloc fresh).2.2.env.errno = Errno.EINVAL ∧
    (pf_alloc (pf_alloc fresh).2.2).1.isSome = true ∧
    (pf_alloc (pf_alloc fresh).2.2).2.1 = 1 := by
  decide

/-! ### Allocation: claim C4 and the zero page -/

theorem pf_alloc_finish_ok (n : Int) (s : pf) (h : (pf_alloc_finish n s).1.isSome = true) :
    s.pageno ≠ 0 ∧ 0 ≤ pageOff s.pageno ∧
    pf_alloc_finish n s = (some (zeroed s.page), n,
      { s with page := zeroed s.page,
               env := (s.env.wrote 0 s.hpage).wrote (pageOff s.pageno).toNat (zeroed s.page) }) := by
  unfold pf_alloc_finish at h ⊢
  by_cases h1 : (_hwrite s).1 = 0
  · have q1 := _hwrite_ok s h1
    rw [_hwrite_eq s q1] at h ⊢
    simp only [ne_eq, not_true_eq_false, if_false] at h ⊢
    by_cases h2 : s.pageno = 0
    · simp [pf_write, h2, seterrno] at h
    · have e : pf_write { s with env := s.env.wrote 0 s.hpage, page := zeroed s.page }
          = _pwrite { s with env := s.env.wrote 0 s.hpage, page := zeroed s.page } := by
        unfold pf_write; rw [if_neg h2]
      rw [e] at h ⊢
      by_cases h3 : (_pwrite { s with env := s.env.wrote 0 s.hpage, page := zeroed s.page }).1 = 0
      · obtain ⟨h0, q2⟩ := _pwrite_ok _ h3
        rw [_pwrite_eq _ h0 q2]
        exact ⟨h2, h0, by simp⟩
      · simp [h3] at h
  · simp [h1] at h

theorem pf_alloc_pop_fail (s : pf) (h1 : toInt32 (_hfree s) ≠ 0)
    (h2 : (pf_read s (toInt32 (_hfree s))).1.isNone = true) :
    pf_alloc s = (none, toInt32 (_hfree s), (pf_read s (toInt32 (_hfree s))).2) := by
  unfold pf_alloc
  simp only []
  rw [if_pos h1, if_pos h2]

theorem pf_alloc_pop (s : pf) (h1 : toInt32 (_hfree s) ≠ 0)
    (h2 : ¬ (pf_read s (toInt32 (_hfree s))).1.isNone = true) :
    pf_alloc s = pf_alloc_finish (toInt32 (_hfree s))
      (set_hfree (pf_read s (toInt32 (_hfree s))).2
        (_nextfree (pf_read s (toInt32 (_hfree s))).2)) := by
  unfold pf_alloc
  simp only []
  rw [if_pos h1, if_neg h2]

theorem pf_alloc_ext (s : pf) (h1 : toInt32 (_hfree s) = 0) :
    pf_alloc s = pf_alloc_finish (toInt32 (_npages s))
      (set_npages { s with pageno := toInt32 (_npages s) } (_npages s + 1)) := by
  unfold pf_alloc
  simp only []
  rw [if_neg (not_not.mpr h1)]
  rfl

/-- Claim C4: whenever `pf_alloc` succeeds (returns a non-null buffer), in any handle
state, the page number it reports is not 0. -/
theorem pf_alloc_pageno_ne_zero (s : pf) (h : (pf_alloc s).1.isSome = true) :
    (pf_alloc s).2.1 ≠ 0 := by
  by_cases h1 : toInt32 (_hfree s) = 0
  · rw [pf_alloc_ext s h1] at h ⊢
    obtain ⟨hz, _, e⟩ := pf_alloc_finish_ok _ _ h
    rw [e]
    exact hz
  · by_cases h2 : (pf_read s (toInt32 (_hfree s))).1.isNone = true
    · rw [pf_alloc_pop_fail s h1 h2] at h
      simp at h
    · rw [pf_alloc_pop s h1 h2] at h ⊢
      obtain ⟨_, _, e⟩ := pf_alloc_finish_ok _ _ h
      rw [e]; exact h1

/-- Witness for C4: the allocation after the first one on a fresh page file succeeds and
reports a non-zero page number. -/
theorem pf_alloc_pageno_ne_zero_witness :
    (pf_alloc primed).1.isSome = true ∧ (pf_alloc primed).2.1 ≠ 0 :=
  ⟨by decide, pf_alloc_pageno_ne_zero primed (by decide)⟩

theorem pf_read_ok (s : pf) (p : Int) (h : ¬ (pf_read s p).1.isNone = true) :
    0 < p ∧ 0 ≤ pageOff p ∧ quiet s.env.faults 2 = true ∧
    pf_read s p = (some (s.env.fill (pageOff p).toNat s.page),
      { s with pageno := p, page := s.env.fill (pageOff p).toNat s.page,
               env := s.env.readAt (pageOff p).toNat }) := by
  unfold pf_read at h ⊢
  by_cases hp : p ≤ 0
  · simp [hp] at h
  · rw [if_neg hp] at h ⊢
    by_cases h1 : (_pread { s with pageno := p }).1 = 0
    · obtain ⟨h0, q⟩ := _pread_ok _ h1
      refine ⟨not_le.mp hp, h0, q, ?_⟩
      rw [_pread_eq _ h0 q]
      simp
    · simp [h1] at h

theorem wrote_size (e : Env) (o : Nat) (b : Buf) : o + PFPAGESZ ≤ (e.wrote o b).size := by
  simp only [Env.wrote]; exact le_max_right _ _

theorem wrote_size_le (e : Env) (o : Nat) (b : Buf) : e.size ≤ (e.wrote o b).size := by
  simp only [Env.wrote]; exact le_max_left _ _

theorem wrote_data_in (e : Env) (o : Nat) (b : Buf) (i : Nat) (h : i < PFPAGESZ) :
    (e.wrote o b).data (o + i) = b i := by
  simp only [Env.wrote]
  rw [if_pos ⟨by omega, by omega⟩]
  congr 1; omega

theorem wrote_data_out (e : Env) (o : Nat) (b : Buf) (j : Nat) (h1 : j < e.size)
    (h2 : j < o ∨ o + PFPAGESZ ≤ j) : (e.wrote o b).data j = e.data j := by
  simp only [Env.wrote]
  rw [if_neg (by omega), if_pos h1]

theorem zeroed_of_lt (b : Buf) (i : Nat) (h : i < PFPAGESZ) : zeroed b i = 0 := by
  simp [zeroed, h]

/-- Effect of a successful `pf_alloc` on the page buffer, the resident page number and the
file page it writes. -/
theorem pf_alloc_zero_core (s : pf) (h : (pf_alloc s).1.isSome = true) :
    ∃ b, (pf_alloc s).1 = some b ∧
      (∀ i, i < PFPAGESZ → b i = 0) ∧
      (pf_alloc s).2.2.page = b ∧
      (pf_alloc s).2.2.pageno = (pf_alloc s).2.1 ∧
      0 ≤ pageOff (pf_alloc s).2.1 ∧
      (pageOff (pf_alloc s).2.1).toNat + PFPAGESZ ≤ (pf_alloc s).2.2.env.size ∧
      (∀ i, i < PFPAGESZ →
        (pf_alloc s).2.2.env.data ((pageOff (pf_alloc s).2.1).toNat + i) = 0) := by
  by_cases h1 : toInt32 (_hfree s) = 0
  · rw [pf_alloc_ext s h1] at h ⊢
    obtain ⟨_, h0, e⟩ := pf_alloc_finish_ok _ _ h
    rw [e]
    refine ⟨_, rfl, fun i hi => zeroed_of_lt _ i hi, rfl, rfl, h0, wrote_size _ _ _, ?_⟩
    intro i hi
    exact (wrote_data_in _ _ _ i hi).trans (zeroed_of_lt _ i hi)
  · by_cases h2 : (pf_read s (toInt32 (_hfree s))).1.isNone = true
    · rw [pf_alloc_pop_fail s h1 h2] at h
      simp at h
    · rw [pf_alloc_pop s h1 h2] at h ⊢
      obtain ⟨_, h0, e⟩ := pf_alloc_finish_ok _ _ h
      obtain ⟨_, _, _, er⟩ := pf_read_ok s _ h2
      rw [e]
      rw [er] at h0 ⊢
      refine ⟨_, rfl, fun i hi => zeroed_of_lt _ i hi, rfl, rfl, h0, wrote_size _ _ _, ?_⟩
      intro i hi
      exact (wrote_data_in _ _ _ i hi).trans (zeroed_of_lt _ i hi)

/-- What a successful `pf_alloc` with page number `n` leaves at the place where the code
stores page `n`, in every handle state and on either path: the returned buffer is the page
buffer of the handle and consists of `PFPAGESZ` zero bytes, `n` is the resident page
number, the file holds `PFPAGESZ` zero bytes at the offset `pageOff n` that `_pwrite`
computes, and for `n > 0` a following `pf_read` of `n` (whose two system calls do not
fail) returns them.  The offset `pageOff n` is `n * PFPAGESZ` only for `n < 2^19`. -/
theorem pf_alloc_zero_filled (s : pf) (h : (pf_alloc s).1.isSome = true) :
    ∃ b, (pf_alloc s).1 = some b ∧
      (∀ i, i < PFPAGESZ → b i = 0) ∧
      (pf_alloc s).2.2.page = b ∧
      (pf_alloc s).2.2.pageno = (pf_alloc s).2.1 ∧
      0 ≤ pageOff (pf_alloc s).2.1 ∧
      (pageOff (pf_alloc s).2.1).toNat + PFPAGESZ ≤ (pf_alloc s).2.2.env.size ∧
      (∀ i, i < PFPAGESZ →
        (pf_alloc s).2.2.env.data ((pageOff (pf_alloc s).2.1).toNat + i) = 0) ∧
      (0 < (pf_alloc s).2.1 → quiet (pf_alloc s).2.2.env.faults 2 = true →
        ∃ c, (pf_read (pf_alloc s).2.2 (pf_alloc s).2.1).1 = some c ∧
          ∀ i, i < PFPAGESZ → c i = 0) := by
  obtain ⟨b, h1, h2, h3, h4, h5, h6, h7⟩ := pf_alloc_zero_core s h
  refine ⟨b, h1, h2, h3, h4, h5, h6, h7, ?_⟩
  intro hp hq
  obtain ⟨c, hc1, hc2, _⟩ :=
    pf_read_back (pf_alloc s).2.2 (pf_alloc s).2.1 (fun _ => 0) hp h5 h6 h7 hq
  exact ⟨c, hc1, hc2⟩

/-- The statement `pf_alloc_zero_filled` applied on both paths: `primed` has an empty free
list and extends the file with page 1; `freedOne` has page 1 on its free list and pops
it. -/
theorem pf_alloc_zero_filled_witness :
    (_hfree primed = 0 ∧ (pf_alloc primed).2.1 = 1 ∧
      ∃ b, (pf_alloc primed).1 = some b ∧ b 0 = 0 ∧
        (pf_alloc primed).2.2.env.data ((pageOff (pf_alloc primed).2.1).toNat + 7) = 0 ∧
        ∃ c, (pf_read (pf_alloc primed).2.2 (pf_alloc primed).2.1).1 = some c ∧ c 7 = 0) ∧
    (_hfree freedOne = 1 ∧ (pf_alloc freedOne).2.1 = 1 ∧
      ∃ b, (pf_alloc freedOne).1 = some b ∧ b 0 = 0 ∧
        (pf_alloc freedOne).2.2.env.data ((pageOff (pf_alloc freedOne).2.1).toNat + 7) = 0 ∧
        ∃ c, (pf_read (pf_alloc freedOne).2.2 (pf_alloc freedOne).2.1).1 = some c ∧
          c 7 = 0) := by
  constructor
  · obtain ⟨b, h1, h2, _, _, _, _, h3, h4⟩ := pf_alloc_zero_filled primed (by decide)
    obtain ⟨c, hc1, hc2⟩ := h4 (by decide) (by decide)
    exact ⟨by decide, by decide, b, h1, h2 0 (by decide), h3 7 (by decide), c, hc1,
      hc2 7 (by decide)⟩
  · obtain ⟨b, h1, h2, _, _, _, _, h3, h4⟩ := pf_alloc_zero_filled freedOne (by decide)
    obtain ⟨c, hc1, hc2⟩ := h4 (by decide) (by decide)
    exact ⟨by decide, by decide, b, h1, h2 0 (by decide), h3 7 (by decide), c, hc1,
      hc2 7 (by decide)⟩

/-! ### Typed metadata accessors: claims C7 and C8 -/

theorem PFPAGESZ_eq : PFPAGESZ = 4096 := rfl
theorem PFHDRSZ_eq : PFHDRSZ = 32 := rfl
theorem PFMETASZ_eq : PFMETASZ = 4064 := rfl

theorem st_zero_width (b : Buf) (i v : Nat) : st b i 0 v = b := by
  funext j
  by_cases h : j < i
  · exact st_of_lt b i 0 v j h
  · exact st_of_ge b i 0 v j (by omega)

theorem st_update_succ (b : Buf) (i w v : Nat) :
    st (Function.update b i (byteOf v)) (i + 1) w (v / 256) = st b i (w + 1) v := by
  funext j
  by_cases h1 : j < i
  · rw [st_of_lt _ _ _ _ _ (by omega), st_of_lt _ _ _ _ _ h1,
      Function.update_noteq (by omega)]
  · by_cases h2 : j = i
    · subst h2
      rw [st_of_lt _ _ _ _ _ (by omega), st_of_mem _ _ _ _ _ (le_refl _) (by omega)]
      simp
    · by_cases h3 : j < i + 1 + w
      · rw [st_of_mem _ _ _ _ _ (by omega) h3, st_of_mem _ _ _ _ _ (by omega) (by omega)]
        have : j - i = (j - (i + 1)) + 1 := by omega
        rw [this, pow_succ, Nat.mul_comm, Nat.div_div_eq_div_mul]
      · rw [st_of_ge _ _ _ _ _ (by omega), st_of_ge _ _ _ _ _ (by omega),
          Function.update_noteq h2]

theorem store_hpage (s : pf) (a : Int) (w v : Nat) (h0 : 0 ≤ a) (h1 : a + w ≤ PFPAGESZ) :
    store s a w v = some { s with hpage := st s.hpage a.toNat w v } := by
  induction w generalizing s a v with
  | zero => simp [store, st_zero_width]
  | succ w ih =>
    have hp : poke s a (byteOf v)
        = some { s with hpage := Function.update s.hpage a.toNat (byteOf v) } := by
      unfold poke
      rw [if_pos ⟨h0, by push_cast at h1; omega⟩]
    simp only [store, hp]
    rw [ih _ (a + 1) (v / 256) (by omega) (by push_cast at h1 ⊢; omega)]
    have e : (a + 1).toNat = a.toNat + 1 := by omega
    simp only [e, st_update_succ]

theorem load_hpage (s : pf) (a : Int) (w : Nat) (h0 : 0 ≤ a) (h1 : a + w ≤ PFPAGESZ) :
    load s a w = some (ld s.hpage a.toNat w) := by
  induction w generalizing a with
  | zero => simp [load, ld]
  | succ w ih =>
    have hp : peek s a = some (s.hpage a.toNat) := by
      unfold peek
      rw [if_pos ⟨h0, by push_cast at h1; omega⟩]
    have e : (a + 1).toNat = a.toNat + 1 := by omega
    simp only [load, hp, ih (a + 1) (by omega) (by push_cast at h1 ⊢; omega), ld, e]

theorem _hwrite_frame (s : pf) : (_hwrite s).2 = { s with env := (_hwrite s).2.env } := by
  unfold _hwrite
  simp only []
  split
  · rfl
  · split <;> rfl

/-- Round trip through the header page for a store of `w` bytes at address `p`. -/
theorem meta_roundtrip (s : pf) (p : Int) (w v : Nat) (h0 : 0 ≤ p) (h1 : p + w ≤ PFPAGESZ)
    (hv : v < 256 ^ w) :
    ∃ r t, (store s p w v).map _hwrite = some (r, t) ∧
      (load t p w).map (fun x => (x, t)) = some (v, t) := by
  rw [store_hpage s p w v h0 h1]
  refine ⟨(_hwrite { s with hpage := st s.hpage p.toNat w v }).1,
    (_hwrite { s with hpage := st s.hpage p.toNat w v }).2, rfl, ?_⟩
  rw [load_hpage _ p w h0 h1, _hwrite_frame]
  simp only [Option.map_some', ld_st_same, Nat.mod_eq_of_lt hv]

/-- Claim C7 (metadata round trip): for each width of 1, 2, 4 and 8 bytes, every offset
with `0 ≤ off` and `off + width ≤ PFMETASZ` and every value `v` of that width, the set call
is defined and a following get call at the same offset returns `v` (whether or not the set
call managed to persist the header). -/
theorem pfm_set_get_roundtrip (s : pf) (off : Int) (v : Nat) (h0 : 0 ≤ off) :
    (off + 1 ≤ PFMETASZ → v < 2 ^ 8 →
      ∃ r t, pfm_set_u8 s off v = some (r, t) ∧ pfm_get_u8 t off = some (v, t)) ∧
    (off + 2 ≤ PFMETASZ → v < 2 ^ 16 →
      ∃ r t, pfm_set_u16 s off v = some (r, t) ∧ pfm_get_u16 t off = some (v, t)) ∧
    (off + 4 ≤ PFMETASZ → v < 2 ^ 32 →
      ∃ r t, pfm_set_u32 s off v = some (r, t) ∧ pfm_get_u32 t off = some (v, t)) ∧
    (off + 8 ≤ PFMETASZ → v < 2 ^ 64 →
      ∃ r t, pfm_set_u64 s off v = some (r, t) ∧ pfm_get_u64 t off = some (v, t)) := by
  rw [PFMETASZ_eq]
  refine ⟨?_, ?_, ?_, ?_⟩
  · intro h1 hv
    have hc : ¬ ((PFHDRSZ : Int) + off + 1 > PFHDRSZ + off + PFPAGESZ) := by
      rw [PFPAGESZ_eq]; omega
    have hg : ¬ ((PFHDRSZ : Int) + off + 1 > PFPAGESZ) := by
      rw [PFPAGESZ_eq, PFHDRSZ_eq]; omega
    unfold pfm_set_u8 pfm_get_u8
    simp only [hc, hg, if_false]
    exact meta_roundtrip s _ 1 v (by rw [PFHDRSZ_eq]; omega)
      (by rw [PFPAGESZ_eq, PFHDRSZ_eq]; push_cast; omega) (by simpa using hv)
  · intro h1 hv
    have hg : ¬ ((PFHDRSZ : Int) + off + 2 > PFPAGESZ) := by
      rw [PFPAGESZ_eq, PFHDRSZ_eq]; omega
    unfold pfm_set_u16 pfm_get_u16
    simp only [hg, if_false]
    exact meta_roundtrip s _ 2 v (by rw [PFHDRSZ_eq]; omega)
      (by rw [PFPAGESZ_eq, PFHDRSZ_eq]; push_cast; omega) (by norm_num; omega)
  · intro h1 hv
    have hg : ¬ ((PFHDRSZ : Int) + off + 4 > PFPAGESZ) := by
      rw [PFPAGESZ_eq, PFHDRSZ_eq]; omega
    unfold pfm_set_u32 pfm_get_u32
    simp only [hg, if_false]
    exact meta_roundtrip s _ 4 v (by rw [PFHDRSZ_eq]; omega)
      (by rw [PFPAGESZ_eq, PFHDRSZ_eq]; push_cast; omega) (by norm_num; omega)
  · intro h1 hv
    have hg : ¬ ((PFHDRSZ : Int) + off + 8 > PFPAGESZ) := by
      rw [PFPAGESZ_eq, PFHDRSZ_eq]; omega
    unfold pfm_set_u64 pfm_get_u64
    simp only [hg, if_false]
    exact meta_roundtrip s _ 8 v (by rw [PFHDRSZ_eq]; omega)
      (by rw [PFPAGESZ_eq, PFHDRSZ_eq]; push_cast; omega) (by norm_num; omega)

/-- Witness for C7: one round trip per width, at the first offset and at the last offsets
of the metadata region. -/
theorem pfm_set_get_roundtrip_witness :
    (∃ r t, pfm_set_u8 fresh 4063 255 = some (r, t) ∧ pfm_get_u8 t 4063 = some (255, t)) ∧
    (∃ r t, pfm_set_u16 fresh 4062 65535 = some (r, t) ∧ pfm_get_u16 t 4062 = some (65535, t)) ∧
    (∃ r t, pfm_set_u32 fresh 0 305419896 = some (r, t) ∧ pfm_get_u32 t 0 = some (305419896, t)) ∧
    (∃ r t, pfm_set_u64 fresh 4056 (2 ^ 64 - 1) = some (r, t) ∧ pfm_get_u64 t 4056 = some (2 ^ 64 - 1, t)) :=
  ⟨(pfm_set_get_roundtrip fresh 4063 255 (by decide)).1 (by decide) (by decide),
   (pfm_set_get_roundtrip fresh 4062 65535 (by decide)).2.1 (by decide) (by decide),
   (pfm_set_get_roundtrip fresh 0 305419896 (by decide)).2.2.1 (by decide) (by decide),
   (pfm_set_get_roundtrip fresh 4056 (2 ^ 64 - 1) (by decide)).2.2.2 (by decide) (by decide)⟩

/-- Bounds rejection as performed by the seven accessors other than `pfm_set_u8`: an access
ending past the metadata region returns the error value, sets `errno` to `EINVAL` and
changes nothing else. -/
theorem pfm_bounds_rejected (s : pf) (off : Int) (v : Nat) :
    (off + 1 > PFMETASZ → pfm_get_u8 s off = some (2 ^ 8 - 1, seterrno s Errno.EINVAL)) ∧
    (off + 2 > PFMETASZ → pfm_get_u16 s off = some (2 ^ 16 - 1, seterrno s Errno.EINVAL)) ∧
    (off + 4 > PFMETASZ → pfm_get_u32 s off = some (2 ^ 32 - 1, seterrno s Errno.EINVAL)) ∧
    (off + 8 > PFMETASZ → pfm_get_u64 s off = some (2 ^ 64 - 1, seterrno s Errno.EINVAL)) ∧
    (off + 2 > PFMETASZ → pfm_set_u16 s off v = some (-1, seterrno s Errno.EINVAL)) ∧
    (off + 4 > PFMETASZ → pfm_set_u32 s off v = some (-1, seterrno s Errno.EINVAL)) ∧
    (off + 8 > PFMETASZ → pfm_set_u64 s off v = some (-1, seterrno s Errno.EINVAL)) := by
  rw [PFMETASZ_eq]
  refine ⟨?_, ?_, ?_, ?_, ?_, ?_, ?_⟩ <;> intro h
  · unfold pfm_get_u8; simp only []
    rw [if_pos (by rw [PFPAGESZ_eq, PFHDRSZ_eq]; omega)]
  · unfold pfm_get_u16; simp only []
    rw [if_pos (by rw [PFPAGESZ_eq, PFHDRSZ_eq]; omega)]
  · unfold pfm_get_u32; simp only []
    rw [if_pos (by rw [PFPAGESZ_eq, PFHDRSZ_eq]; omega)]
  · unfold pfm_get_u64; simp only []
    rw [if_pos (by rw [PFPAGESZ_eq, PFHDRSZ_eq]; omega)]
  · unfold pfm_set_u16; simp only []
    rw [if_pos (by rw [PFPAGESZ_eq, PFHDRSZ_eq]; omega)]
  · unfold pfm_set_u32; simp only []
    rw [if_pos (by rw [PFPAGESZ_eq, PFHDRSZ_eq]; omega)]
  · unfold pfm_set_u64; simp only []
    rw [if_pos (by rw [PFPAGESZ_eq, PFHDRSZ_eq]; omega)]

/-- The bounds check of `pfm_set_u8` never rejects: the call always reaches the store. -/
theorem pfm_set_u8_unchecked (s : pf) (off : Int) (v : Nat) :
    pfm_set_u8 s off v = (store s (PFHDRSZ + off) 1 v).map _hwrite := by
  unfold pfm_set_u8; simp only []
  rw [if_neg (by rw [PFPAGESZ_eq]; omega)]

/-- Claim C8, evaluated at its failing input: `pfm_set_u8` at offset 4064 (where
`offset + 1 > PFMETASZ`) reports no error; it stores the byte one past the header page,
which is byte 0 of the page buffer, persists the header and returns 0.  At the same
boundary `pfm_get_u8` and `pfm_set_u16` do report `EINVAL`. -/
theorem pfm_set_u8_no_bounds_check :
    (4064 : Int) + 1 > PFMETASZ ∧
    (pfm_set_u8 fresh 4064 171).map (fun r => (r.1, r.2.page 0, r.2.env.errno))
      = some (0, 171, Errno.E0) ∧
    fresh.page 0 = 0 ∧
    (pfm_get_u8 fresh 4064).map (fun r => (r.1, r.2.env.errno)) = some (255, Errno.EINVAL) ∧
    (pfm_set_u16 fresh 4063 171).map (fun r => (r.1, r.2.page 0, r.2.env.errno))
      = some (-1, 0, Errno.EINVAL) := by
  decide

/-! ### Opening a file: claims C9 and C10 -/

theorem read_fst_neg (e : Env) (b : Buf) (n : Nat) :
    (read e b n).1 < 0 ↔ fault e.faults = true := by
  unfold read
  by_cases h1 : fault e.faults = true
  · simp [h1]
  · simp [h1]

theorem ld_zero (i w : Nat) : ld (fun _ => 0) i w = 0 := by
  induction w generalizing i with
  | zero => rfl
  | succ w ih => simp [ld, ih]

/-- Whatever the descriptor and the outcomes of the system calls, `pf_open` on a file of
size 0 returns `NULL`. -/
theorem pf_open_size_zero (mem : Bool) (fd : Int) (e : Env) (h : e.size = 0) :
    (pf_open mem fd e).1 = none := by
  unfold pf_open
  by_cases hm : mem = false
  · simp [hm]
  · rw [if_neg hm]
    simp only []
    by_cases hfd : fd = 0
    · simp [hfd]
    · rw [if_neg hfd]
      by_cases hs : (fstat e fd).1 ≠ 0
      · rw [if_pos hs]
      · rw [if_neg hs]
        have hsz : (fstat e fd).2.1 = 0 := by
          unfold fstat
          split
          · rfl
          · split
            · rfl
            · exact h
        rw [if_pos hsz]
        have hsz2 : (fstat e fd).2.2.size = 0 := by
          unfold fstat
          split
          · exact h
          · split <;> exact h
        generalize (fstat e fd).2.2 = e1 at hsz2 ⊢
        have hr : (_hread ⟨fd, fun _ => 0, fun _ => 0, 0, e1⟩).1 ≠ 0 := by
          unfold _hread
          simp only []
          split
          · simp
          · split
            · simp
            · rename_i h1 h2
              have hq : fault (lseek e1 0).2.faults = false := by
                by_contra hc
                simp only [Bool.not_eq_false] at hc
                exact h2 ((read_fst_neg _ _ _).2 hc)
              have hb : (read (lseek e1 0).2 (fun _ => 0) PFPAGESZ).2.1 = fun _ => 0 := by
                have hsz3 : (lseek e1 0).2.size = 0 := by
                  unfold lseek
                  split
                  · exact hsz2
                  · split <;> exact hsz2
                unfold read
                rw [if_neg (by simp [hq])]
                funext i
                simp [hsz3]
              have hm0 : _hmagic ⟨fd, (read (lseek e1 0).2 (fun _ => 0) PFPAGESZ).2.1,
                  fun _ => 0, 0, (read (lseek e1 0).2 (fun _ => 0) PFPAGESZ).2.2⟩
                  ≠ PFMAGIC := by
                unfold _hmagic
                simp only [hb, ld_zero]
                decide
              rw [if_pos hm0]
              simp
        rw [if_pos hr]

/-- Claim C9, evaluated at its failing input: `pf_open` on a newly created, empty file
takes the header-loading branch, finds no magic signature and returns `NULL` with `errno`
set to `EFTYPE`; nothing is written to the file. -/
theorem pf_open_empty_file_fails :
    emptyFile.size = 0 ∧ (pf_open true 3 emptyFile).1.isNone = true ∧
    (pf_open true 3 emptyFile).2.errno = Errno.EFTYPE ∧
    (pf_open true 3 emptyFile).2.size = 0 := by
  decide

theorem quiet_succ (l : List Bool) (n : Nat) :
    quiet l (n + 1) = true ↔ fault l = false ∧ quiet l.tail n = true := by
  cases l with
  | nil => cases n <;> simp [quiet, fault]
  | cons b t => cases b <;> simp [quiet, fault]

/-- On every non-empty file, whatever its first bytes, `pf_open` (with `malloc`, `open`
and the three system calls succeeding) takes the initialization branch: it returns a
handle with a fresh header and overwrites page 0 of the file with it. -/
theorem pf_open_nonempty (fd : Int) (e : Env) (hfd : 0 < fd) (hs : e.size ≠ 0)
    (hq : quiet e.faults 3 = true) :
    ∃ t, (pf_open true fd e).1 = some t ∧ t.hpage = freshHeader ∧
      ∀ i, i < PFPAGESZ → (pf_open true fd e).2.data i = freshHeader i := by
  obtain ⟨q1, q2⟩ := (quiet_succ e.faults 2).1 hq
  have hst : fstat e fd = (0, e.size, { e with faults := e.faults.tail }) := by
    unfold fstat
    rw [if_neg (by simp [q1]), if_neg (by omega)]
  unfold pf_open
  simp only [hst]
  rw [if_neg (by simp), if_neg (by omega), if_neg (by simp), if_neg hs]
  have hw := _hwrite_eq (set_hmagic ⟨fd, fun _ => 0, fun _ => 0, 0,
    { e with faults := e.faults.tail }⟩ PFMAGIC) q2
  simp only [hw]
  rw [if_neg (by simp)]
  refine ⟨_, rfl, rfl, ?_⟩
  intro i hi
  have := wrote_data_in { e with faults := e.faults.tail } 0 freshHeader i hi
  simpa using this

/-- Claim C10, evaluated at its failing input: `pf_open` on an existing non-empty file
whose first four bytes are not the magic signature succeeds, and overwrites page 0 of the
file with a fresh header. -/
theorem pf_open_overwrites_foreign_file :
    junkFile.size ≠ 0 ∧ ld junkFile.data 0 4 ≠ PFMAGIC ∧
    (pf_open true 3 junkFile).1.isSome = true ∧
    (pf_open true 3 junkFile).2.size = PFPAGESZ ∧
    ld (pf_open true 3 junkFile).2.data 0 4 = PFMAGIC ∧
    (pf_open true 3 junkFile).2.data 4 = 0 ∧ junkFile.data 4 = 0x41 := by
  decide

/-! ### Free-list reuse: claim C3 -/

/-- Claim C3, evaluated at its failing input: pages 1 and `2^20 + 1` are distinct but the
`int` product `pageno * PFPAGESZ` gives both the file offset 4096.  With free-list head 5,
freeing page 1 and then page `2^20 + 1` (every call succeeding), the next two `pf_alloc`
calls return `2^20 + 1` and 1, but the free-list head ends at 0 instead of 5. -/
theorem lifo_breaks_on_aliased_pages :
    _hfree lifoStart = 5 ∧
    (pf_read lifoStart 1).1.isSome = true ∧
    (pf_free (pf_read lifoStart 1).2).1 = 0 ∧
    (pf_read (pf_free (pf_read lifoStart 1).2).2 1048577).1.isSome = true ∧
    (pf_free (pf_read (pf_free (pf_read lifoStart 1).2).2 1048577).2).1 = 0 ∧
    (pf_alloc lifoFreed).1.isSome = true ∧ (pf_alloc lifoFreed).2.1 = 1048577 ∧
    (pf_alloc (pf_alloc lifoFreed).2.2).1.isSome = true ∧
    (pf_alloc (pf_alloc lifoFreed).2.2).2.1 = 1 ∧
    _hfree (pf_alloc (pf_alloc lifoFreed).2.2).2.2 = 0 ∧
    pageOff 1048577 = pageOff 1 := by
  decide

/-! ### The free list and allocation uniqueness: claim C5 -/

theorem link_congr (e f : Env) (p : Nat)
    (hd : ∀ i, i < PFPAGESZ → f.data (p * PFPAGESZ + i) = e.data (p * PFPAGESZ + i)) :
    link f p = link e p := by
  unfold link
  apply ld_congr
  intro j h1 h2
  have := hd (j - p * PFPAGESZ) (by rw [PFPAGESZ_eq] at *; omega)
  rwa [Nat.add_sub_cancel' h1] at this

theorem FreeChain_congr (e f : Env) (h : Nat) (L : List Nat) (hsz : e.size ≤ f.size)
    (hd : ∀ p ∈ L, ∀ i, i < PFPAGESZ → f.data (p * PFPAGESZ + i) = e.data (p * PFPAGESZ + i))
    (hc : FreeChain e h L) : FreeChain f h L := by
  induction L generalizing h with
  | nil => exact hc
  | cons p l ih =>
    obtain ⟨h1, h2, h3, h4⟩ := hc
    refine ⟨h1, h2, le_trans h3 hsz, ?_⟩
    rw [link_congr e f p (hd p (List.mem_cons_self _ _))]
    exact ih _ (fun q hq => hd q (List.mem_cons_of_mem _ hq)) h4

theorem FreeChain_mem (e : Env) (h : Nat) (L : List Nat) (hc : FreeChain e h L) :
    ∀ p ∈ L, p ≠ 0 ∧ p * PFPAGESZ + PFPAGESZ ≤ e.size := by
  induction L generalizing h with
  | nil => intro p hp; cases hp
  | cons q l ih =>
    obtain ⟨_, h2, h3, h4⟩ := hc
    intro p hp
    rcases List.mem_cons.1 hp with rfl | hp
    · exact ⟨h2, h3⟩
    · exact ih _ h4 p hp

theorem FreeChain_wrote (e : Env) (q : Nat) (b : Buf) (h : Nat) (L : List Nat)
    (hc : FreeChain e h L) (hq : q ∉ L) : FreeChain (e.wrote (q * PFPAGESZ) b) h L := by
  apply FreeChain_congr e _ h L (wrote_size_le _ _ _) _ hc
  intro p hp i hi
  obtain ⟨_, hs⟩ := FreeChain_mem e h L hc p hp
  have hne : p ≠ q := fun hpq => hq (hpq ▸ hp)
  apply wrote_data_out
  · omega
  · rw [PFPAGESZ_eq] at *
    rcases Nat.lt_or_gt_of_ne hne with hlt | hgt
    · left; omega
    · right; omega

theorem FreeChain_wrote_header (e : Env) (b : Buf) (h : Nat) (L : List Nat)
    (hc : FreeChain e h L) : FreeChain (e.wrote 0 b) h L := by
  have h0 : (0 : Nat) ∉ L := fun h0 => (FreeChain_mem e h L hc 0 h0).1 rfl
  have := FreeChain_wrote e 0 b h L hc h0
  simpa using this

theorem FreeChain_same_file (e f : Env) (h : Nat) (L : List Nat) (hs : f.size = e.size)
    (hd : f.data = e.data) (hc : FreeChain e h L) : FreeChain f h L :=
  FreeChain_congr e f h L (le_of_eq hs.symm) (fun _ _ _ _ => by rw [hd]) hc

theorem AllocInv_congr (s t : pf) (A : List Int) (hh : t.hpage = s.hpage)
    (hs : t.env.size = s.env.size) (hd : t.env.data = s.env.data) (hi : AllocInv s A) :
    AllocInv t A := by
  obtain ⟨h1, h2, L, h3, h4, h5⟩ := hi
  have hn : _npages t = _npages s := by unfold _npages; rw [hh]
  have hf : _hfree t = _hfree s := by unfold _hfree; rw [hh]
  refine ⟨by rw [hn]; exact h1, by rw [hn]; exact h2, L, ?_, h4, by rw [hn]; exact h5⟩
  rw [hf]
  exact FreeChain_same_file _ _ _ _ hs hd h3

theorem pf_read_hpage (s : pf) (p : Int) : (pf_read s p).2.hpage = s.hpage := by
  unfold pf_read
  split
  · rfl
  · simp only []
    split
    · unfold _pread; simp only []; split
      · rfl
      · split <;> rfl
    · unfold _pread; simp only []; split
      · rfl
      · split <;> rfl

theorem pf_write_ok (s : pf) (h : (pf_write s).1 = 0) :
    s.pageno ≠ 0 ∧ 0 ≤ pageOff s.pageno ∧
    pf_write s = (0, { s with env := s.env.wrote (pageOff s.pageno).toNat s.page }) := by
  by_cases h0 : s.pageno = 0
  · simp [pf_write, h0] at h
  · have e : pf_write s = _pwrite s := by unfold pf_write; rw [if_neg h0]
    rw [e] at h ⊢
    obtain ⟨h1, q⟩ := _pwrite_ok s h
    exact ⟨h0, h1, _pwrite_eq s h1 q⟩

theorem pf_free_ok (s : pf) (h : (pf_free s).1 = 0) :
    s.pageno ≠ 0 ∧ 0 ≤ pageOff s.pageno ∧
    pf_free s = (0,
      { s with
        page := st s.page 0 4 (_hfree s)
        hpage := st s.hpage 8 4 (toUInt32 s.pageno)
        pageno := 0
        env := ((s.env.wrote (pageOff s.pageno).toNat (st s.page 0 4 (_hfree s))).wrote 0
                  (st s.hpage 8 4 (toUInt32 s.pageno))) }) := by
  by_cases h0 : s.pageno = 0
  · simp [pf_free, h0] at h
  · unfold pf_free at h ⊢
    rw [if_neg h0] at h ⊢
    simp only [] at h ⊢
    by_cases h1 : (_pwrite (set_hfree (set_nextfree s (_hfree s))
        (toUInt32 (set_nextfree s (_hfree s)).pageno))).1 = 0
    · obtain ⟨h2, q⟩ := _pwrite_ok _ h1
      have e1 := _pwrite_eq _ h2 q
      rw [e1] at h ⊢
      simp only [ne_eq, not_true_eq_false, if_false] at h ⊢
      by_cases h3 : (_hwrite { set_hfree (set_nextfree s (_hfree s))
          (toUInt32 (set_nextfree s (_hfree s)).pageno) with
          env := (set_hfree (set_nextfree s (_hfree s))
            (toUInt32 (set_nextfree s (_hfree s)).pageno)).env.wrote
              (pageOff (set_hfree (set_nextfree s (_hfree s))
                (toUInt32 (set_nextfree s (_hfree s)).pageno)).pageno).toNat
              (set_hfree (set_nextfree s (_hfree s))
                (toUInt32 (set_nextfree s (_hfree s)).pageno)).page }).1 = 0
      · have q2 := _hwrite_ok _ h3
        rw [_hwrite_eq _ q2]
        refine ⟨h0, h2, ?_⟩
        simp [set_hfree, set_nextfree]
      · simp [h3] at h
    · simp [h1] at h

theorem ld_offset (d b : Buf) (o i w : Nat)
    (h : ∀ j, i ≤ j → j < i + w → d (o + j) = b j) : ld d (o + i) w = ld b i w := by
  induction w generalizing i with
  | zero => rfl
  | succ w ih =>
    simp only [ld]
    rw [h i (le_refl i) (by omega), ← ih (i + 1) (fun j h1 h2 => h j (by omega) (by omega))]
    rfl

theorem pageOff_small (p : Int) (h1 : 0 ≤ p) (h2 : p < 2 ^ 19) :
    pageOff p = p * PFPAGESZ ∧ (pageOff p).toNat = p.toNat * PFPAGESZ := by
  have e : pageOff p = p * PFPAGESZ := by
    unfold pageOff
    rw [PFPAGESZ_eq]
    apply wrap32_of_range <;> push_cast <;> omega
  refine ⟨e, ?_⟩
  rw [e, PFPAGESZ_eq]
  push_cast
  omega

theorem pageOff_limit : pageOff (2 ^ 19) < 0 := by decide

theorem npages_set_hfree (s : pf) (v : Nat) : _npages (set_hfree s v) = _npages s := by
  unfold _npages set_hfree
  exact ld_st_other _ _ _ _ _ _ (by omega)

theorem hfree_set_hfree (s : pf) (v : Nat) (hv : v < 2 ^ 32) : _hfree (set_hfree s v) = v := by
  unfold _hfree set_hfree
  simp only [ld_st_same]
  exact Nat.mod_eq_of_lt (by norm_num; omega)

theorem hfree_set_npages (s : pf) (v : Nat) : _hfree (set_npages s v) = _hfree s := by
  unfold _hfree set_npages
  exact ld_st_other _ _ _ _ _ _ (by omega)

theorem npages_set_npages (s : pf) (v : Nat) (hv : v < 2 ^ 32) :
    _npages (set_npages s v) = v := by
  unfold _npages set_npages
  simp only [ld_st_same]
  exact Nat.mod_eq_of_lt (by norm_num; omega)

theorem toInt32_eq_zero (n : Nat) (hn : n < 2 ^ 32) (h : toInt32 n = 0) : n = 0 := by
  unfold toInt32 at h
  rw [Nat.mod_eq_of_lt hn] at h
  split at h <;> omega

theorem FreeChain_zero (e : Env) (L : List Nat) (hc : FreeChain e 0 L) : L = [] := by
  cases L with
  | nil => rfl
  | cons p l => exact absurd hc.1.symm hc.2.1

theorem inv_write (s : pf) (A : List Int) (hi : AllocInv s A) (hm : s.pageno ∈ A)
    (hw : (pf_write s).1 = 0) : AllocInv (pf_write s).2 A := by
  obtain ⟨_, _, e⟩ := pf_write_ok s hw
  rw [e]
  obtain ⟨h1, h2, L, h3, h4, h5⟩ := hi
  obtain ⟨ha1, ha2⟩ := h2 _ hm
  have ho := (pageOff_small s.pageno (by omega) (by omega)).2
  refine ⟨h1, h2, L, ?_, h4, h5⟩
  show FreeChain (s.env.wrote (pageOff s.pageno).toNat s.page) (_hfree s) L
  rw [ho]
  apply FreeChain_wrote _ _ _ _ _ h3
  intro hc
  apply (h5 _ hc).2
  rw [Int.toNat_of_nonneg (by omega)]
  exact hm

theorem inv_read (s : pf) (A : List Int) (p : Int) (hi : AllocInv s A) :
    AllocInv (pf_read s p).2 A :=
  AllocInv_congr s _ A (pf_read_hpage s p) (pf_read_file s p).2 (pf_read_file s p).1 hi

theorem inv_free (s : pf) (A : List Int) (hi : AllocInv s A) (hm : s.pageno ∈ A)
    (hf : (pf_free s).1 = 0) :
    AllocInv (pf_free s).2 (A.filter fun a => a ≠ s.pageno) := by
  obtain ⟨_, _, e⟩ := pf_free_ok s hf
  rw [e]
  obtain ⟨h1, h2, L, h3, h4, h5⟩ := hi
  obtain ⟨ha1, ha2⟩ := h2 _ hm
  have ho := (pageOff_small s.pageno (by omega) (by omega)).2
  have hcast : ((s.pageno.toNat : Nat) : Int) = s.pageno := Int.toNat_of_nonneg (by omega)
  have hu : toUInt32 s.pageno = s.pageno.toNat := toUInt32_of_range _ (by omega) (by omega)
  have hnl : s.pageno.toNat ∉ L := fun hc => (h5 _ hc).2 (by rw [hcast]; exact hm)
  have hn : ld (st s.hpage 8 4 (toUInt32 s.pageno)) 4 4 = _npages s :=
    ld_st_other _ _ _ _ _ _ (by omega)
  have hh : ld (st s.hpage 8 4 (toUInt32 s.pageno)) 8 4 = s.pageno.toNat := by
    rw [ld_st_same, hu]
    exact Nat.mod_eq_of_lt (by norm_num; omega)
  refine ⟨?_, ?_, s.pageno.toNat :: L, ?_, ?_, ?_⟩
  · show ld (st s.hpage 8 4 (toUInt32 s.pageno)) 4 4 ≤ 2 ^ 19
    rw [hn]; exact h1
  · intro a ha
    show 1 ≤ a ∧ a < ((ld (st s.hpage 8 4 (toUInt32 s.pageno)) 4 4 : Nat) : Int)
    rw [hn]
    exact h2 a (List.mem_of_mem_filter ha)
  · show FreeChain _ (ld (st s.hpage 8 4 (toUInt32 s.pageno)) 8 4) _
    rw [hh, ho]
    refine ⟨rfl, by omega, ?_, ?_⟩
    · exact le_trans (wrote_size _ _ _) (wrote_size_le _ _ _)
    · have hl : link ((s.env.wrote (s.pageno.toNat * PFPAGESZ) (st s.page 0 4 (_hfree s))).wrote 0
          (st s.hpage 8 4 (toUInt32 s.pageno))) s.pageno.toNat = _hfree s := by
        unfold link
        have hc := ld_offset ((s.env.wrote (s.pageno.toNat * PFPAGESZ)
              (st s.page 0 4 (_hfree s))).wrote 0 (st s.hpage 8 4 (toUInt32 s.pageno))).data
              (st s.page 0 4 (_hfree s)) (s.pageno.toNat * PFPAGESZ) 0 4 (by
          intro j _ hj2
          have hsz := wrote_size s.env (s.pageno.toNat * PFPAGESZ) (st s.page 0 4 (_hfree s))
          rw [wrote_data_out _ _ _ _ (by rw [PFPAGESZ_eq] at *; omega)
            (by rw [PFPAGESZ_eq] at *; omega)]
          exact wrote_data_in s.env (s.pageno.toNat * PFPAGESZ) (st s.page 0 4 (_hfree s))
            j (by rw [PFPAGESZ_eq]; omega))
        rw [Nat.add_zero] at hc
        rw [hc, ld_st_same]
        exact Nat.mod_eq_of_lt (by have := ld_lt s.hpage 8 4; unfold _hfree; norm_num at this ⊢; omega)
      rw [hl]
      exact FreeChain_wrote_header _ _ _ _ (FreeChain_wrote _ _ _ _ _ h3 hnl)
  · exact List.nodup_cons.2 ⟨hnl, h4⟩
  · intro p hp
    show p < ld (st s.hpage 8 4 (toUInt32 s.pageno)) 4 4 ∧ _
    rw [hn]
    rcases List.mem_cons.1 hp with rfl | hp
    · refine ⟨by omega, ?_⟩
      intro hc
      have := (List.mem_filter.1 hc).2
      rw [hcast] at this
      simp at this
    · exact ⟨(h5 p hp).1, fun hc => (h5 p hp).2 (List.mem_of_mem_filter hc)⟩

theorem hfree_lt (s : pf) : _hfree s < 2 ^ 32 := by
  have := ld_lt s.hpage 8 4
  unfold _hfree
  norm_num at this ⊢
  exact this

theorem inv_alloc_ext (s : pf) (A : List Int) (hi : AllocInv s A)
    (h0 : toInt32 (_hfree s) = 0) (ha : (pf_alloc s).1.isSome = true) :
    AllocInv (pf_alloc s).2.2 ((pf_alloc s).2.1 :: A) ∧ (pf_alloc s).2.1 ∉ A := by
  rw [pf_alloc_ext s h0] at ha ⊢
  obtain ⟨hz, hoff, e⟩ := pf_alloc_finish_ok _ _ ha
  rw [e]
  dsimp only
  obtain ⟨h1, h2, L, h3, _, _⟩ := hi
  have hf0 : _hfree s = 0 := toInt32_eq_zero _ (hfree_lt s) h0
  have hn : toInt32 (_npages s) = (_npages s : Int) := toInt32_of_lt _ (by omega)
  have hz' : toInt32 (_npages s) ≠ 0 := hz
  have hoff' : 0 ≤ pageOff (toInt32 (_npages s)) := hoff
  rw [hn] at hz' hoff' ⊢
  have hlt : _npages s < 2 ^ 19 := by
    rcases Nat.lt_or_ge (_npages s) (2 ^ 19) with h | h
    · exact h
    · have : _npages s = 2 ^ 19 := le_antisymm h1 h
      rw [this] at hoff'
      exact absurd hoff' (by decide)
  have hnp : ld (st s.hpage 4 4 (_npages s + 1)) 4 4 = _npages s + 1 := by
    rw [ld_st_same]
    exact Nat.mod_eq_of_lt (by norm_num; omega)
  have hfr : ld (st s.hpage 4 4 (_npages s + 1)) 8 4 = _hfree s :=
    ld_st_other _ _ _ _ _ _ (by omega)
  constructor
  · refine ⟨?_, ?_, [], ?_, List.nodup_nil, fun p hp => by cases hp⟩
    · show ld (st s.hpage 4 4 (_npages s + 1)) 4 4 ≤ 2 ^ 19
      rw [hnp]; omega
    · intro a ha'
      show 1 ≤ a ∧ a < ((ld (st s.hpage 4 4 (_npages s + 1)) 4 4 : Nat) : Int)
      rw [hnp]
      rcases List.mem_cons.1 ha' with hq | ha'
      · rw [hq]; push_cast; omega
      · have := h2 a ha'
        push_cast; omega
    · show ld (st s.hpage 4 4 (_npages s + 1)) 8 4 = 0
      rw [hfr]; exact hf0
  · intro hc
    have := (h2 _ hc).2
    omega

theorem set_hfree_mk (fd : Int) (h pg : Buf) (n : Int) (e : Env) (v : Nat) :
    set_hfree ⟨fd, h, pg, n, e⟩ v = ⟨fd, st h 8 4 v, pg, n, e⟩ := rfl

theorem set_npages_mk (fd : Int) (h pg : Buf) (n : Int) (e : Env) (v : Nat) :
    set_npages ⟨fd, h, pg, n, e⟩ v = ⟨fd, st h 4 4 v, pg, n, e⟩ := rfl

theorem _nextfree_mk (fd : Int) (h pg : Buf) (n : Int) (e : Env) :
    _nextfree ⟨fd, h, pg, n, e⟩ = ld pg 0 4 := rfl

theorem pf_alloc_ext_ok (s : pf) (h0 : toInt32 (_hfree s) = 0)
    (ha : (pf_alloc s).1.isSome = true) :
    toInt32 (_npages s) ≠ 0 ∧ 0 ≤ pageOff (toInt32 (_npages s)) ∧
    pf_alloc s = (some (zeroed s.page), toInt32 (_npages s),
      ⟨s.fd, st s.hpage 4 4 (_npages s + 1), zeroed s.page, toInt32 (_npages s),
        (s.env.wrote 0 (st s.hpage 4 4 (_npages s + 1))).wrote
          (pageOff (toInt32 (_npages s))).toNat (zeroed s.page)⟩) := by
  rw [pf_alloc_ext s h0] at ha ⊢
  obtain ⟨hz, hoff, e⟩ := pf_alloc_finish_ok _ _ ha
  exact ⟨hz, hoff, e⟩

theorem pf_alloc_pop_ok (s : pf) (h0 : toInt32 (_hfree s) ≠ 0)
    (ha : (pf_alloc s).1.isSome = true) :
    0 < toInt32 (_hfree s) ∧ 0 ≤ pageOff (toInt32 (_hfree s)) ∧
    pf_alloc s = (some (zeroed (s.env.fill (pageOff (toInt32 (_hfree s))).toNat s.page)),
      toInt32 (_hfree s),
      ⟨s.fd,
        st s.hpage 8 4 (ld (s.env.fill (pageOff (toInt32 (_hfree s))).toNat s.page) 0 4),
        zeroed (s.env.fill (pageOff (toInt32 (_hfree s))).toNat s.page),
        toInt32 (_hfree s),
        ((s.env.readAt (pageOff (toInt32 (_hfree s))).toNat).wrote 0
          (st s.hpage 8 4 (ld (s.env.fill (pageOff (toInt32 (_hfree s))).toNat s.page) 0 4))).wrote
          (pageOff (toInt32 (_hfree s))).toNat
          (zeroed (s.env.fill (pageOff (toInt32 (_hfree s))).toNat s.page))⟩) := by
  by_cases hr : (pf_read s (toInt32 (_hfree s))).1.isNone = true
  · rw [pf_alloc_pop_fail s h0 hr] at ha
    simp at ha
  rw [pf_alloc_pop s h0 hr] at ha ⊢
  obtain ⟨hp, hoff, _, er⟩ := pf_read_ok s _ hr
  rw [er] at ha ⊢
  dsimp only at ha ⊢
  rw [_nextfree_mk, set_hfree_mk] at ha ⊢
  obtain ⟨_, _, e⟩ := pf_alloc_finish_ok _ _ ha
  exact ⟨hp, hoff, e⟩

theorem inv_alloc_pop (s : pf) (A : List Int) (hi : AllocInv s A)
    (h0 : toInt32 (_hfree s) ≠ 0) (ha : (pf_alloc s).1.isSome = true) :
    AllocInv (pf_alloc s).2.2 ((pf_alloc s).2.1 :: A) ∧ (pf_alloc s).2.1 ∉ A := by
  obtain ⟨_, _, e⟩ := pf_alloc_pop_ok s h0 ha
  obtain ⟨h1, h2, L, h3, h4, h5⟩ := hi
  have hne : _hfree s ≠ 0 := by
    intro hc
    rw [hc] at h0
    exact h0 (by decide)
  cases L with
  | nil => exact absurd h3 hne
  | cons p l =>
    obtain ⟨hp, hp0, hps, hcl⟩ := h3
    obtain ⟨hpl, hnd⟩ := List.nodup_cons.1 h4
    obtain ⟨hpn, hpA⟩ := h5 p (List.mem_cons_self _ _)
    have hti : toInt32 (_hfree s) = (p : Int) := by
      rw [hp]; exact toInt32_of_lt _ (by omega)
    have ho := (pageOff_small (p : Int) (by omega) (by omega)).2
    rw [Int.toNat_ofNat] at ho
    rw [hti, ho] at e
    rw [e]
    dsimp only
    have hfill : ∀ i, i < PFPAGESZ →
        s.env.fill (p * PFPAGESZ) s.page i = s.env.data (p * PFPAGESZ + i) := by
      intro i hi
      unfold Env.fill
      rw [if_pos]
      rw [min_eq_left (by omega)]; exact hi
    have hnext : ld (s.env.fill (p * PFPAGESZ) s.page) 0 4 = link s.env p := by
      unfold link
      have := ld_offset s.env.data (s.env.fill (p * PFPAGESZ) s.page) (p * PFPAGESZ) 0 4
        (fun j _ hj => (hfill j (by rw [PFPAGESZ_eq]; omega)).symm)
      rw [Nat.add_zero] at this
      exact this.symm
    have hlk : link s.env p < 2 ^ 32 := by
      have := ld_lt s.env.data (p * PFPAGESZ) 4
      unfold link
      norm_num at this ⊢
      exact this
    rw [hnext]
    have hnp : ld (st s.hpage 8 4 (link s.env p)) 4 4 = _npages s :=
      ld_st_other _ _ _ _ _ _ (by omega)
    have hfr : ld (st s.hpage 8 4 (link s.env p)) 8 4 = link s.env p := by
      rw [ld_st_same]
      exact Nat.mod_eq_of_lt (by norm_num; omega)
    constructor
    · refine ⟨?_, ?_, l, ?_, hnd, ?_⟩
      · show ld (st s.hpage 8 4 (link s.env p)) 4 4 ≤ 2 ^ 19
        rw [hnp]; exact h1
      · intro a ha'
        show 1 ≤ a ∧ a < ((ld (st s.hpage 8 4 (link s.env p)) 4 4 : Nat) : Int)
        rw [hnp]
        rcases List.mem_cons.1 ha' with hq | ha'
        · rw [hq]; omega
        · exact h2 a ha'
      · show FreeChain _ (ld (st s.hpage 8 4 (link s.env p)) 8 4) l
        rw [hfr]
        have c1 : FreeChain (s.env.readAt (p * PFPAGESZ)) (link s.env p) l :=
          FreeChain_same_file s.env _ _ _ rfl rfl hcl
        have c2 := FreeChain_wrote_header _ (st s.hpage 8 4 (link s.env p)) _ _ c1
        exact FreeChain_wrote _ p (zeroed (s.env.fill (p * PFPAGESZ) s.page)) _ _ c2 hpl
      · intro q hq
        show q < ld (st s.hpage 8 4 (link s.env p)) 4 4 ∧ _
        rw [hnp]
        obtain ⟨hq1, hq2⟩ := h5 q (List.mem_cons_of_mem _ hq)
        refine ⟨hq1, ?_⟩
        intro hc
        rcases List.mem_cons.1 hc with hc | hc
        · have : q = p := by exact_mod_cast hc
          exact hpl (this ▸ hq)
        · exact hq2 hc
    · exact hpA

theorem inv_alloc (s : pf) (A : List Int) (hi : AllocInv s A)
    (ha : (pf_alloc s).1.isSome = true) :
    AllocInv (pf_alloc s).2.2 ((pf_alloc s).2.1 :: A) ∧ (pf_alloc s).2.1 ∉ A := by
  by_cases h0 : toInt32 (_hfree s) = 0
  · exact inv_alloc_ext s A hi h0 ha
  · exact inv_alloc_pop s A hi h0 ha

theorem inv_init (s : pf) (h0 : _hfree s = 0) (hn : _npages s ≤ 2 ^ 19) : AllocInv s [] := by
  refine ⟨hn, ?_, [], h0, List.nodup_nil, ?_⟩
  · intro a ha; cases ha
  · intro p hp; cases hp

theorem Reach_inv (s0 s : pf) (A : List Int) (h0 : _hfree s0 = 0) (hn : _npages s0 ≤ 2 ^ 19)
    (hr : Reach s0 s A) : AllocInv s A := by
  induction hr with
  | init => exact inv_init s0 h0 hn
  | edit s A b _ ih => exact ih
  | alloc s A _ ha ih => exact (inv_alloc s A ih ha).1
  | read s A p _ _ _ ih => exact inv_read s A p ih
  | write s A _ hm hw ih => exact inv_write s A ih hm hw
  | free s A _ hm hf ih => exact inv_free s A ih hm hf

/-- Claim C5 (allocation uniqueness): in every state reached by successful `pf_alloc`,
`pf_read`, `pf_write` and `pf_free` calls, the last three applied to currently allocated
pages only, from a handle whose free list is empty and whose page count is at most `2^19`
(a freshly initialized page file has page count 0), the page number returned by a
successful `pf_alloc` is not currently allocated. -/
theorem pf_alloc_unique (s0 s : pf) (A : List Int) (h0 : _hfree s0 = 0)
    (hn : _npages s0 ≤ 2 ^ 19) (hr : Reach s0 s A) (ha : (pf_alloc s).1.isSome = true) :
    (pf_alloc s).2.1 ∉ A :=
  (inv_alloc s A (Reach_inv s0 s A h0 hn hr) ha).2

/-- Witness for C5: from `primed`, pages 1 and 2 are allocated, page 1 is read and freed;
the next `pf_alloc` succeeds and returns page 1, which is not in the list `[2]` of
allocated pages. -/
theorem pf_alloc_unique_witness :
    _hfree primed = 0 ∧ _npages primed = 1 ∧
    (pf_alloc oneFreed).1.isSome = true ∧ (pf_alloc oneFreed).2.1 = 1 ∧
    (pf_alloc oneFreed).2.1 ∉ ([2] : List Int) := by
  have r1 : Reach primed (pf_alloc primed).2.2 [(pf_alloc primed).2.1] :=
    Reach.alloc primed [] Reach.init (by decide)
  have r2 : Reach primed twoPages [(pf_alloc (pf_alloc primed).2.2).2.1, (pf_alloc primed).2.1] :=
    Reach.alloc _ _ r1 (by decide)
  have e2 : [(pf_alloc (pf_alloc primed).2.2).2.1, (pf_alloc primed).2.1] = ([2, 1] : List Int) := by
    decide
  rw [e2] at r2
  have r3 : Reach primed (pf_read twoPages 1).2 [2, 1] :=
    Reach.read twoPages [2, 1] 1 r2 (by decide) (by decide)
  have r4 : Reach primed oneFreed ([2, 1].filter fun a => a ≠ (pf_read twoPages 1).2.pageno) :=
    Reach.free _ _ r3 (by decide) (by decide)
  have e4 : ([2, 1].filter fun a => a ≠ (pf_read twoPages 1).2.pageno) = ([2] : List Int) := by
    decide
  rw [e4] at r4
  exact ⟨by decide, by decide, by decide, by decide,
    pf_alloc_unique primed oneFreed [2] (by decide) (by decide) r4 (by decide)⟩

/-! ### Free-list reuse on pages whose offsets do not overflow -/

theorem quiet_add_two (l : List Bool) (n : Nat) (h : quiet l (n + 2) = true) :
    quiet l 2 = true ∧ quiet l.tail.tail n = true := by
  obtain ⟨a1, a2⟩ := (quiet_succ l (n + 1)).1 h
  obtain ⟨b1, b2⟩ := (quiet_succ l.tail n).1 a2
  exact ⟨(quiet_two l).2 ⟨a1, b1⟩, b2⟩

theorem pf_read_eq (s : pf) (p : Int) (hp : 0 < p) (h0 : 0 ≤ pageOff p)
    (hq : quiet s.env.faults 2 = true) :
    pf_read s p = (some (s.env.fill (pageOff p).toNat s.page),
      ⟨s.fd, s.hpage, s.env.fill (pageOff p).toNat s.page, p,
        s.env.readAt (pageOff p).toNat⟩) := by
  unfold pf_read
  rw [if_neg (not_le.mpr hp)]
  have e := _pread_eq { s with pageno := p } h0 hq
  simp only [e]
  rw [if_neg (by simp)]

theorem pf_free_eq (s : pf) (hne : s.pageno ≠ 0) (h0 : 0 ≤ pageOff s.pageno)
    (hq : quiet s.env.faults 4 = true) :
    pf_free s = (0,
      ⟨s.fd, st s.hpage 8 4 (toUInt32 s.pageno), st s.page 0 4 (_hfree s), 0,
        (s.env.wrote (pageOff s.pageno).toNat (st s.page 0 4 (_hfree s))).wrote 0
          (st s.hpage 8 4 (toUInt32 s.pageno))⟩) := by
  obtain ⟨q1, q2⟩ := quiet_add_two _ 2 hq
  have e1 := _pwrite_eq ⟨s.fd, st s.hpage 8 4 (toUInt32 s.pageno), st s.page 0 4 (_hfree s),
    s.pageno, s.env⟩ h0 q1
  have e2 := _hwrite_eq ⟨s.fd, st s.hpage 8 4 (toUInt32 s.pageno), st s.page 0 4 (_hfree s),
    s.pageno, s.env.wrote (pageOff s.pageno).toNat (st s.page 0 4 (_hfree s))⟩ q2
  have hs : (pf_free s).1 = 0 := by
    unfold pf_free
    rw [if_neg hne]
    simp only [set_hfree, set_nextfree]
    rw [e1]
    simp only [ne_eq, not_true_eq_false, if_false]
    rw [e2]
    simp
  exact (pf_free_ok s hs).2.2

theorem pf_alloc_finish_eq (n : Int) (s : pf) (hne : s.pageno ≠ 0) (h0 : 0 ≤ pageOff s.pageno)
    (hq : quiet s.env.faults 4 = true) : (pf_alloc_finish n s).1.isSome = true := by
  obtain ⟨q1, q2⟩ := quiet_add_two _ 2 hq
  have e1 := _hwrite_eq s q1
  have e2 := _pwrite_eq ⟨s.fd, s.hpage, zeroed s.page, s.pageno, s.env.wrote 0 s.hpage⟩ h0 q2
  unfold pf_alloc_finish
  rw [e1]
  simp only [ne_eq, not_true_eq_false, if_false]
  unfold pf_write
  rw [if_neg hne, e2]
  simp

theorem pf_alloc_pop_eq (s : pf) (hp : 0 < toInt32 (_hfree s))
    (h0 : 0 ≤ pageOff (toInt32 (_hfree s))) (hq : quiet s.env.faults 6 = true) :
    (pf_alloc s).1.isSome = true := by
  obtain ⟨q1, q2⟩ := quiet_add_two _ 4 hq
  have er := pf_read_eq s _ hp h0 q1
  have hr : ¬ (pf_read s (toInt32 (_hfree s))).1.isNone = true := by rw [er]; simp
  rw [pf_alloc_pop s (by omega) hr, er]
  dsimp only
  rw [_nextfree_mk, set_hfree_mk]
  exact pf_alloc_finish_eq _ _ (by show toInt32 (_hfree s) ≠ 0; omega) h0 q2

theorem link_wrote_other (e : Env) (q p : Nat) (b : Buf) (hne : q ≠ p)
    (hsz : q * PFPAGESZ + PFPAGESZ ≤ e.size) :
    link (e.wrote (p * PFPAGESZ) b) q = link e q := by
  apply link_congr
  intro i hi
  apply wrote_data_out
  · omega
  · rw [PFPAGESZ_eq] at *
    rcases Nat.lt_or_gt_of_ne hne with hlt | hgt
    · left; omega
    · right; omega

theorem link_wrote_header (e : Env) (q : Nat) (b : Buf) (hq : q ≠ 0)
    (hsz : q * PFPAGESZ + PFPAGESZ ≤ e.size) : link (e.wrote 0 b) q = link e q := by
  have := link_wrote_other e q 0 b hq hsz
  simpa using this

theorem link_wrote_same (e : Env) (p : Nat) (b : Buf) :
    link (e.wrote (p * PFPAGESZ) b) p = ld b 0 4 := by
  unfold link
  have := ld_offset (e.wrote (p * PFPAGESZ) b).data b (p * PFPAGESZ) 0 4
    (fun j _ hj => wrote_data_in e (p * PFPAGESZ) b j (by rw [PFPAGESZ_eq]; omega))
  rw [Nat.add_zero] at this
  exact this

theorem quiet_add_six (l : List Bool) (n : Nat) (h : quiet l (n + 6) = true) :
    quiet l 6 = true ∧ quiet l.tail.tail.tail.tail.tail.tail n = true := by
  obtain ⟨a1, a2⟩ := (quiet_succ l (n + 5)).1 h
  obtain ⟨b1, b2⟩ := (quiet_succ l.tail (n + 4)).1 a2
  obtain ⟨c1, c2⟩ := (quiet_succ l.tail.tail (n + 3)).1 b2
  obtain ⟨d1, d2⟩ := (quiet_succ l.tail.tail.tail (n + 2)).1 c2
  obtain ⟨e1, e2⟩ := (quiet_succ l.tail.tail.tail.tail (n + 1)).1 d2
  obtain ⟨f1, f2⟩ := (quiet_succ l.tail.tail.tail.tail.tail n).1 e2
  refine ⟨?_, f2⟩
  rw [quiet_succ, quiet_succ, quiet_succ, quiet_succ, quiet_succ, quiet_succ]
  refine ⟨a1, b1, c1, d1, e1, f1, ?_⟩
  cases l.tail.tail.tail.tail.tail.tail <;> rfl

/-- Effect of `pf_read` of page `p` followed by `pf_free`, for `0 < p < 2^19` and six
system calls that do not fail: both calls succeed, the free-list head becomes `p`, page
`p` of the file links to the previous head, and the links of the other pages stay. -/
theorem read_free_step (t : pf) (p : Int) (hp : 0 < p) (hp2 : p < 2 ^ 19)
    (hq : quiet t.env.faults 6 = true) :
    (pf_read t p).1.isSome = true ∧ (pf_free (pf_read t p).2).1 = 0 ∧
    _hfree (pf_free (pf_read t p).2).2 = p.toNat ∧
    _npages (pf_free (pf_read t p).2).2 = _npages t ∧
    link (pf_free (pf_read t p).2).2.env p.toNat = _hfree t ∧
    p.toNat * PFPAGESZ + PFPAGESZ ≤ (pf_free (pf_read t p).2).2.env.size ∧
    (pf_free (pf_read t p).2).2.env.faults = t.env.faults.tail.tail.tail.tail.tail.tail ∧
    (∀ q : Nat, q ≠ p.toNat → q ≠ 0 → q * PFPAGESZ + PFPAGESZ ≤ t.env.size →
      link (pf_free (pf_read t p).2).2.env q = link t.env q ∧
      q * PFPAGESZ + PFPAGESZ ≤ (pf_free (pf_read t p).2).2.env.size) := by
  obtain ⟨q1, q2⟩ := quiet_add_two _ 4 hq
  obtain ⟨ho1, ho⟩ := pageOff_small p (by omega) hp2
  have h0 : 0 ≤ pageOff p := by rw [ho1, PFPAGESZ_eq]; omega
  have er := pf_read_eq t p hp h0 q1
  rw [er]
  dsimp only
  have ef := pf_free_eq ⟨t.fd, t.hpage, t.env.fill (pageOff p).toNat t.page, p,
    t.env.readAt (pageOff p).toNat⟩ (by show p ≠ 0; omega) h0 q2
  rw [ef]
  dsimp only
  rw [ho]
  have hu : toUInt32 p = p.toNat := toUInt32_of_range _ (by omega) (by omega)
  have hf : _hfree ⟨t.fd, t.hpage, t.env.fill (p.toNat * PFPAGESZ) t.page, p,
      t.env.readAt (p.toNat * PFPAGESZ)⟩ = _hfree t := rfl
  rw [hf, hu]
  refine ⟨rfl, rfl, ?_, ?_, ?_, ?_, rfl, ?_⟩
  · show ld (st t.hpage 8 4 p.toNat) 8 4 = p.toNat
    rw [ld_st_same]
    exact Nat.mod_eq_of_lt (by norm_num; omega)
  · show ld (st t.hpage 8 4 p.toNat) 4 4 = _npages t
    exact ld_st_other _ _ _ _ _ _ (by omega)
  · rw [link_wrote_header _ _ _ (by omega) (wrote_size _ _ _), link_wrote_same, ld_st_same]
    exact Nat.mod_eq_of_lt (by have := hfree_lt t; norm_num at this ⊢; omega)
  · exact le_trans (wrote_size _ _ _) (wrote_size_le _ _ _)
  · intro q hq1 hq0 hqs
    have hs1 : q * PFPAGESZ + PFPAGESZ ≤
        ((t.env.readAt (p.toNat * PFPAGESZ)).wrote (p.toNat * PFPAGESZ)
          (st (t.env.fill (p.toNat * PFPAGESZ) t.page) 0 4 (_hfree t))).size :=
      le_trans hqs (wrote_size_le (t.env.readAt (p.toNat * PFPAGESZ)) _ _)
    refine ⟨?_, le_trans hs1 (wrote_size_le _ _ _)⟩
    rw [link_wrote_header _ _ _ hq0 hs1,
      link_wrote_other (t.env.readAt (p.toNat * PFPAGESZ)) _ _ _ hq1 hqs]
    rfl

/-- Effect of `pf_alloc` when the free-list head is a page `p` with `0 < p < 2^19` that
lies inside the file, and six system calls do not fail: the call succeeds with page `p`,
the head becomes the link stored in page `p`, and the links of the other pages stay. -/
theorem alloc_pop_step (t : pf) (p : Nat) (hf : _hfree t = p) (hp : 0 < p) (hp2 : p < 2 ^ 19)
    (hsz : p * PFPAGESZ + PFPAGESZ ≤ t.env.size) (hq : quiet t.env.faults 6 = true) :
    (pf_alloc t).1.isSome = true ∧ (pf_alloc t).2.1 = p ∧
    _hfree (pf_alloc t).2.2 = link t.env p ∧
    _npages (pf_alloc t).2.2 = _npages t ∧
    (pf_alloc t).2.2.env.faults = t.env.faults.tail.tail.tail.tail.tail.tail ∧
    (∀ q : Nat, q ≠ p → q ≠ 0 → q * PFPAGESZ + PFPAGESZ ≤ t.env.size →
      link (pf_alloc t).2.2.env q = link t.env q ∧
      q * PFPAGESZ + PFPAGESZ ≤ (pf_alloc t).2.2.env.size) := by
  have hti : toInt32 (_hfree t) = (p : Int) := by
    rw [hf]; exact toInt32_of_lt _ (by omega)
  obtain ⟨ho1, ho⟩ := pageOff_small (p : Int) (by omega) (by omega)
  rw [Int.toNat_ofNat] at ho
  have h0 : 0 ≤ pageOff (p : Int) := by rw [ho1, PFPAGESZ_eq]; omega
  have hs : (pf_alloc t).1.isSome = true :=
    pf_alloc_pop_eq t (by rw [hti]; omega) (by rw [hti]; exact h0) hq
  obtain ⟨_, _, e⟩ := pf_alloc_pop_ok t (by rw [hti]; omega) hs
  rw [hti, ho] at e
  rw [e]
  dsimp only
  have hfill : ∀ i, i < PFPAGESZ →
      t.env.fill (p * PFPAGESZ) t.page i = t.env.data (p * PFPAGESZ + i) := by
    intro i hi
    unfold Env.fill
    rw [if_pos]
    rw [min_eq_left (by omega)]; exact hi
  have hnext : ld (t.env.fill (p * PFPAGESZ) t.page) 0 4 = link t.env p := by
    unfold link
    have := ld_offset t.env.data (t.env.fill (p * PFPAGESZ) t.page) (p * PFPAGESZ) 0 4
      (fun j _ hj => (hfill j (by rw [PFPAGESZ_eq]; omega)).symm)
    rw [Nat.add_zero] at this
    exact this.symm
  have hlk : link t.env p < 2 ^ 32 := by
    have := ld_lt t.env.data (p * PFPAGESZ) 4
    unfold link
    norm_num at this ⊢
    exact this
  rw [hnext]
  refine ⟨rfl, rfl, ?_, ?_, rfl, ?_⟩
  · show ld (st t.hpage 8 4 (link t.env p)) 8 4 = link t.env p
    rw [ld_st_same]
    exact Nat.mod_eq_of_lt (by norm_num; omega)
  · show ld (st t.hpage 8 4 (link t.env p)) 4 4 = _npages t
    exact ld_st_other _ _ _ _ _ _ (by omega)
  · intro q hq1 hq0 hqs
    have hs1 : q * PFPAGESZ + PFPAGESZ ≤
        ((t.env.readAt (p * PFPAGESZ)).wrote 0 (st t.hpage 8 4 (link t.env p))).size :=
      le_trans hqs (wrote_size_le (t.env.readAt (p * PFPAGESZ)) _ _)
    refine ⟨?_, le_trans hs1 (wrote_size_le _ _ _)⟩
    rw [link_wrote_other _ _ _ _ hq1 hs1,
      link_wrote_header (t.env.readAt (p * PFPAGESZ)) _ _ hq0 hqs]
    rfl

/-- Free-list LIFO reuse for pages whose file offsets do not overflow: for distinct page
numbers `0 < A, B < 2^19`, any handle state and 24 system calls that do not fail, reading
and freeing `A`, then reading and freeing `B`, succeeds; the next two `pf_alloc` calls
succeed and return `B` and then `A`; afterwards the free-list head and the page count are
what they were before the two frees. -/
theorem lifo_reuse (s : pf) (A B : Int) (hA : 0 < A) (hA2 : A < 2 ^ 19) (hB : 0 < B)
    (hB2 : B < 2 ^ 19) (hne : A ≠ B) (hq : quiet s.env.faults 24 = true) :
    (pf_read s A).1.isSome = true ∧ (pf_free (pf_read s A).2).1 = 0 ∧
    (pf_read (pf_free (pf_read s A).2).2 B).1.isSome = true ∧
    (pf_free (pf_read (pf_free (pf_read s A).2).2 B).2).1 = 0 ∧
    (pf_alloc (pf_free (pf_read (pf_free (pf_read s A).2).2 B).2).2).1.isSome = true ∧
    (pf_alloc (pf_free (pf_read (pf_free (pf_read s A).2).2 B).2).2).2.1 = B ∧
    (pf_alloc (pf_alloc
      (pf_free (pf_read (pf_free (pf_read s A).2).2 B).2).2).2.2).1.isSome = true ∧
    (pf_alloc (pf_alloc (pf_free (pf_read (pf_free (pf_read s A).2).2 B).2).2).2.2).2.1 = A ∧
    _hfree (pf_alloc (pf_alloc
      (pf_free (pf_read (pf_free (pf_read s A).2).2 B).2).2).2.2).2.2 = _hfree s ∧
    _npages (pf_alloc (pf_alloc
      (pf_free (pf_read (pf_free (pf_read s A).2).2 B).2).2).2.2).2.2 = _npages s := by
  obtain ⟨qa, hq1⟩ := quiet_add_six _ 18 hq
  obtain ⟨a1, a2, a3, a4, a5, a6, a7, _⟩ := read_free_step s A hA hA2 qa
  generalize pf_free (pf_read s A).2 = r1 at *
  rw [← a7] at hq1
  obtain ⟨qb, hq2⟩ := quiet_add_six _ 12 hq1
  have hAB : A.toNat ≠ B.toNat := by omega
  obtain ⟨b1, b2, b3, b4, b5, b6, b7, b8⟩ := read_free_step r1.2 B hB hB2 qb
  obtain ⟨b9, b10⟩ := b8 A.toNat hAB (by omega) a6
  generalize pf_free (pf_read r1.2 B).2 = r2 at *
  rw [← b7] at hq2
  obtain ⟨qc, hq3⟩ := quiet_add_six _ 6 hq2
  obtain ⟨c1, c2, c3, c4, c5, c6⟩ :=
    alloc_pop_step r2.2 B.toNat b3 (by omega) (by omega) b6 qc
  obtain ⟨c7, c8⟩ := c6 A.toNat hAB (by omega) b10
  generalize pf_alloc r2.2 = r3 at *
  rw [← c5] at hq3
  obtain ⟨d1, d2, d3, d4, _, _⟩ :=
    alloc_pop_step r3.2.2 A.toNat (by rw [c3, b5, a3]) (by omega) (by omega) c8 hq3
  refine ⟨a1, a2, b1, b2, c1, ?_, d1, ?_, ?_, ?_⟩
  · rw [c2]; exact Int.toNat_of_nonneg (by omega)
  · rw [d2]; exact Int.toNat_of_nonneg (by omega)
  · rw [d3, c7, b9, a5]
  · rw [d4, c4, b4, a4]

/-! ### Reopening and rejected calls: claims C11, C12 and C13 -/

theorem Untouched_seterrno (s : pf) (e : Errno) : Untouched s (seterrno s e) :=
  ⟨rfl, rfl, rfl, rfl, rfl, rfl, rfl, rfl⟩

/-- Claim C11, evaluated at its failing input: a page file with page count 3, free-list
head 1 and a metadata value is closed and opened again.  The file is not empty, so
`pf_open` takes the initialization branch: it succeeds, but the handle has page count 0,
free-list head 0 and zero metadata, and page 0 of the file is overwritten accordingly. -/
theorem reopen_resets_header :
    _npages withMeta = 3 ∧ _hfree withMeta = 1 ∧
    (pfm_get_u32 withMeta 0).map Prod.fst = some 305419896 ∧
    ld withMeta.env.data 4 4 = 3 ∧ (pf_close withMeta).size = 3 * PFPAGESZ ∧
    (pf_open true 3 (pf_close withMeta)).1.map
      (fun t => (_hmagic t, _npages t, _hfree t, (pfm_get_u32 t 0).map Prod.fst))
      = some (PFMAGIC, 0, 0, some 0) ∧
    ld (pf_open true 3 (pf_close withMeta)).2.data 4 4 = 0 := by
  decide

/-- Claim C12 (invalid page number): for every handle state and every page number
`p ≤ 0`, `pf_read` returns `NULL` with `errno` set to `EINVAL` and without any system
call; the resident page number, the page buffer, the header and the file are unchanged. -/
theorem pf_read_invalid_pageno (s : pf) (p : Int) (hp : p ≤ 0) :
    (pf_read s p).1 = none ∧ (pf_read s p).2.env.errno = Errno.EINVAL ∧
    Untouched s (pf_read s p).2 := by
  unfold pf_read
  rw [if_pos hp]
  exact ⟨rfl, rfl, Untouched_seterrno s _⟩

/-- Witness for C12: page numbers 0 and -5 on a handle with page 1 resident. -/
theorem pf_read_invalid_pageno_witness :
    ((pf_read sevens 0).1 = none ∧ (pf_read sevens 0).2.env.errno = Errno.EINVAL ∧
      Untouched sevens (pf_read sevens 0).2) ∧
    ((pf_read sevens (-5)).1 = none ∧ (pf_read sevens (-5)).2.env.errno = Errno.EINVAL ∧
      Untouched sevens (pf_read sevens (-5)).2) :=
  ⟨pf_read_invalid_pageno sevens 0 (by decide), pf_read_invalid_pageno sevens (-5) (by decide)⟩

/-- Claim C13 (no resident page): for every handle whose resident page number is 0,
`pf_write` and `pf_free` each return -1 with `errno` set to `EINVAL` and without any system
call; header (free-list head included), page buffer, resident page number and file are
unchanged. -/
theorem no_resident_page_rejected (s : pf) (h : s.pageno = 0) :
    ((pf_write s).1 = -1 ∧ (pf_write s).2.env.errno = Errno.EINVAL ∧
      Untouched s (pf_write s).2) ∧
    ((pf_free s).1 = -1 ∧ (pf_free s).2.env.errno = Errno.EINVAL ∧
      Untouched s (pf_free s).2 ∧ _hfree (pf_free s).2 = _hfree s) := by
  constructor
  · unfold pf_write
    rw [if_pos h]
    exact ⟨rfl, rfl, Untouched_seterrno s _⟩
  · unfold pf_free
    rw [if_pos h]
    exact ⟨rfl, rfl, Untouched_seterrno s _, rfl⟩

/-- Witness for C13: the freshly initialized page file has no resident page. -/
theorem no_resident_page_rejected_witness :
    fresh.pageno = 0 ∧ (pf_write fresh).1 = -1 ∧ (pf_free fresh).1 = -1 ∧
    Untouched fresh (pf_write fresh).2 ∧ Untouched fresh (pf_free fresh).2 :=
  ⟨rfl, (no_resident_page_rejected fresh rfl).1.1, (no_resident_page_rejected fresh rfl).2.1,
    (no_resident_page_rejected fresh rfl).1.2.2, (no_resident_page_rejected fresh rfl).2.2.2.1⟩

/-! ### Page count and control block: claims C14 and C18 -/

theorem _pwrite_frame (s : pf) : (_pwrite s).2 = { s with env := (_pwrite s).2.env } := by
  unfold _pwrite
  simp only []
  split
  · rfl
  · split <;> rfl

theorem _hwrite_hpage (s : pf) : (_hwrite s).2.hpage = s.hpage := by
  rw [_hwrite_frame]

theorem _pwrite_hpage (s : pf) : (_pwrite s).2.hpage = s.hpage := by
  rw [_pwrite_frame]

theorem pf_write_hpage (s : pf) : (pf_write s).2.hpage = s.hpage := by
  unfold pf_write
  split
  · rfl
  · exact _pwrite_hpage s

theorem pf_alloc_finish_hpage (n : Int) (s : pf) :
    (pf_alloc_finish n s).2.2.hpage = s.hpage := by
  unfold pf_alloc_finish
  simp only []
  split
  · exact _hwrite_hpage s
  · split
    · exact (pf_write_hpage _).trans (_hwrite_hpage s)
    · exact (pf_write_hpage _).trans (_hwrite_hpage s)

theorem pf_free_hpage (s : pf) :
    (pf_free s).2.hpage = s.hpage ∨ (pf_free s).2.hpage = st s.hpage 8 4 (toUInt32 s.pageno) := by
  unfold pf_free
  split
  · left; rfl
  · right
    simp only []
    split
    · exact _pwrite_hpage _
    · split
      · exact (_hwrite_hpage _).trans (_pwrite_hpage _)
      · exact (_hwrite_hpage _).trans (_pwrite_hpage _)

theorem npages_of_hpage (s t : pf) (h : t.hpage = s.hpage) : _npages t = _npages s := by
  unfold _npages; rw [h]

/-- What the page operations do to the page count, in every handle state and whether the
call succeeds or not: `pf_free`, `pf_read` and `pf_write` leave it unchanged, `pf_alloc`
leaves it unchanged or adds one modulo `2^32`. -/
theorem page_count_steps (s : pf) (p : Int) :
    _npages (pf_free s).2 = _npages s ∧ _npages (pf_read s p).2 = _npages s ∧
    _npages (pf_write s).2 = _npages s ∧
    (_npages (pf_alloc s).2.2 = _npages s ∨
      _npages (pf_alloc s).2.2 = (_npages s + 1) % 2 ^ 32) := by
  refine ⟨?_, npages_of_hpage _ _ (pf_read_hpage s p), npages_of_hpage _ _ (pf_write_hpage s),
    ?_⟩
  · rcases pf_free_hpage s with h | h
    · exact npages_of_hpage _ _ h
    · unfold _npages
      rw [h]
      exact ld_st_other _ _ _ _ _ _ (by omega)
  · by_cases h0 : toInt32 (_hfree s) = 0
    · right
      rw [pf_alloc_ext s h0]
      unfold _npages
      rw [pf_alloc_finish_hpage]
      show ld (st s.hpage 4 4 (ld s.hpage 4 4 + 1)) 4 4 = _
      rw [ld_st_same]
      norm_num
    · left
      by_cases hr : (pf_read s (toInt32 (_hfree s))).1.isNone = true
      · rw [pf_alloc_pop_fail s h0 hr]
        exact npages_of_hpage _ _ (pf_read_hpage s _)
      · rw [pf_alloc_pop s h0 hr]
        unfold _npages
        rw [pf_alloc_finish_hpage]
        show ld (st (pf_read s (toInt32 (_hfree s))).2.hpage 8 4 _) 4 4 = _
        rw [ld_st_other _ _ _ _ _ _ (by omega), pf_read_hpage]

theorem poke_hpage_frame (s t : pf) (a : Int) (b : Byte) (h : poke s a b = some t)
    (ha : (PFHDRSZ : Int) ≤ a) : ∀ i, i < PFHDRSZ → t.hpage i = s.hpage i := by
  intro i hi
  rw [PFHDRSZ_eq] at ha hi
  unfold poke at h
  split at h
  · simp only [Option.some.injEq] at h
    subst h
    exact Function.update_noteq (by omega) _ _
  · split at h
    · simp only [Option.some.injEq] at h
      subst h
      rfl
    · cases h

theorem store_hpage_frame (s t : pf) (a : Int) (w v : Nat) (h : store s a w v = some t)
    (ha : (PFHDRSZ : Int) ≤ a) : ∀ i, i < PFHDRSZ → t.hpage i = s.hpage i := by
  induction w generalizing s a v with
  | zero =>
    simp only [store, Option.some.injEq] at h
    subst h
    intro i _; rfl
  | succ w ih =>
    simp only [store] at h
    cases hp : poke s a (byteOf v) with
    | none => rw [hp] at h; cases h
    | some s1 =>
      rw [hp] at h
      intro i hi
      rw [ih s1 (a + 1) (v / 256) h (by omega) i hi]
      exact poke_hpage_frame s s1 a _ hp ha i hi

theorem set_frame_aux (s t : pf) (r : Int) (a : Int) (w v : Nat)
    (h : (store s a w v).map _hwrite = some (r, t)) (ha : (PFHDRSZ : Int) ≤ a) :
    ∀ i, i < PFHDRSZ → t.hpage i = s.hpage i := by
  cases hs : store s a w v with
  | none => rw [hs] at h; cases h
  | some s1 =>
    rw [hs] at h
    simp only [Option.map_some', Option.some.injEq] at h
    have ht : t = (_hwrite s1).2 := by rw [h]
    intro i hi
    rw [ht, _hwrite_hpage]
    exact store_hpage_frame s s1 a w v hs ha i hi

/-- Metadata set calls at offsets `off ≥ 0` never touch the control block: whenever the
call is defined, the first `PFHDRSZ` bytes of the header page are the same after it. -/
theorem pfm_set_frame (s t : pf) (off : Int) (v : Nat) (r : Int) (h0 : 0 ≤ off) :
    (pfm_set_u8 s off v = some (r, t) → ∀ i, i < PFHDRSZ → t.hpage i = s.hpage i) ∧
    (pfm_set_u16 s off v = some (r, t) → ∀ i, i < PFHDRSZ → t.hpage i = s.hpage i) ∧
    (pfm_set_u32 s off v = some (r, t) → ∀ i, i < PFHDRSZ → t.hpage i = s.hpage i) ∧
    (pfm_set_u64 s off v = some (r, t) → ∀ i, i < PFHDRSZ → t.hpage i = s.hpage i) := by
  have ha : (PFHDRSZ : Int) ≤ PFHDRSZ + off := by omega
  refine ⟨?_, ?_, ?_, ?_⟩
  · intro h
    rw [pfm_set_u8_unchecked] at h
    exact set_frame_aux s t r _ 1 v h ha
  · intro h
    unfold pfm_set_u16 at h
    simp only [] at h
    split at h
    · simp only [Option.some.injEq, Prod.mk.injEq] at h
      rw [← h.2]; intro i _; rfl
    · exact set_frame_aux s t r _ 2 v h ha
  · intro h
    unfold pfm_set_u32 at h
    simp only [] at h
    split at h
    · simp only [Option.some.injEq, Prod.mk.injEq] at h
      rw [← h.2]; intro i _; rfl
    · exact set_frame_aux s t r _ 4 v h ha
  · intro h
    unfold pfm_set_u64 at h
    simp only [] at h
    split at h
    · simp only [Option.some.injEq, Prod.mk.injEq] at h
      rw [← h.2]; intro i _; rfl
    · exact set_frame_aux s t r _ 8 v h ha

theorem header_fields_of_frame (s t : pf) (h : ∀ i, i < PFHDRSZ → t.hpage i = s.hpage i) :
    _hmagic t = _hmagic s ∧ _npages t = _npages s ∧ _hfree t = _hfree s := by
  rw [PFHDRSZ_eq] at h
  refine ⟨?_, ?_, ?_⟩
  · exact ld_congr _ _ _ _ (fun j _ h2 => h j (by omega))
  · exact ld_congr _ _ _ _ (fun j _ h2 => h j (by omega))
  · exact ld_congr _ _ _ _ (fun j _ h2 => h j (by omega))

/-- Claim C14, evaluated at its failing inputs: `pfm_set_u32` at offset -28 passes the
bounds check (only the end of the range is checked) and overwrites the page count, here
from 3 to 0; and `pf_alloc` on a header with page count `2^32 - 1` wraps it to 0. -/
theorem page_count_decreases :
    _npages twoPages = 3 ∧
    (pfm_set_u32 twoPages (-28) 0).map (fun r => (r.1, _npages r.2)) = some (0, 0) ∧
    _npages fullCount = 2 ^ 32 - 1 ∧ _npages (pf_alloc fullCount).2.2 = 0 := by
  decide

/-- Claim C18, evaluated at its failing inputs: set calls at negative offsets pass the bounds
check, return 0 and overwrite the control block: the magic signature (offset -32), the page
count (offset -28) and the free-list head (offset -24). -/
theorem pfm_set_overwrites_control_block :
    _hmagic twoPages = PFMAGIC ∧ _npages twoPages = 3 ∧ _hfree twoPages = 0 ∧
    (pfm_set_u64 twoPages (-32) 0).map (fun r => (r.1, _hmagic r.2, _npages r.2))
      = some (0, 0, 0) ∧
    (pfm_set_u32 twoPages (-28) 7).map (fun r => (r.1, _npages r.2)) = some (0, 7) ∧
    (pfm_set_u16 twoPages (-24) 9).map (fun r => (r.1, _hfree r.2)) = some (0, 9) ∧
    (pfm_set_u8 twoPages (-24) 9).map (fun r => (r.1, _hfree r.2)) = some (0, 9) := by
  decide

/-! ### Page addressing, failed reads and the free protocol: claims C15, C16 and C17 -/

/-- Claim C15, evaluated at its failing inputs: the page offset is the `int` product
`pageno * PFPAGESZ`.  For page `2^19` it is negative, so `pf_read` fails with `EINVAL`; for
page `2^20 + 1` it is 4096, the offset of page 1, and `pf_write` stores the page there (the
file ends at 8192).  Page `2^19 - 1` is the last one whose offset is `p * 4096`. -/
theorem page_offset_overflows :
    pageOff 524287 = 524287 * 4096 ∧
    pageOff 524288 = -2147483648 ∧ (pf_read sevens 524288).1.isSome = false ∧
    (pf_read sevens 524288).2.env.errno = Errno.EINVAL ∧
    pageOff 1048577 = 4096 ∧ pageOff 1 = 4096 ∧
    (pf_write sevensFar).1 = 0 ∧ (pf_write sevensFar).2.env.data 4096 = 7 ∧
    (pf_write sevensFar).2.env.size = 8192 := by
  decide

/-- For page numbers `0 ≤ p < 2^19` the page offset is `p * PFPAGESZ`, so distinct page
numbers in this range have distinct offsets. -/
theorem page_offset_in_range (p q : Int) (hp : 0 ≤ p) (hp2 : p < 2 ^ 19) (hq : 0 ≤ q)
    (hq2 : q < 2 ^ 19) :
    pageOff p = p * PFPAGESZ ∧ (pageOff p = pageOff q → p = q) := by
  have h1 := (pageOff_small p hp hp2).1
  have h2 := (pageOff_small q hq hq2).1
  refine ⟨h1, ?_⟩
  rw [h1, h2, PFPAGESZ_eq]
  intro h
  omega

/-- Claim C17, evaluated at its failing input: page `2^20` is resident, the free-list head is
5 and the buffer holds sevens.  The page offset wraps to 0, the offset of the header page:
`pf_free` succeeds, but the header written afterwards replaces the page, so the file holds
the magic signature where the link 5 was stored and none of the buffer bytes; the file
(of `2^31` bytes) has no byte at offset `2^20 * 4096` either. -/
theorem pf_free_on_wrapped_page :
    freeFar.pageno = 1048576 ∧ _hfree freeFar = 5 ∧ freeFar.page 100 = 7 ∧
    (pf_free freeFar).1 = 0 ∧ pageOff 1048576 = 0 ∧
    ld (pf_free freeFar).2.env.data 0 4 = PFMAGIC ∧
    (pf_free freeFar).2.env.data 100 = 0 ∧
    (pf_free freeFar).2.env.size = 2 ^ 31 ∧ _hfree (pf_free freeFar).2 = 1048576 := by
  decide

/-- The free protocol on pages whose offsets do not overflow: for a resident page
`0 < p < 2^19` and free-list head `f`, a successful `pf_free` leaves page `p` of the file
with `f` in its first four bytes and the buffer bytes 4..4095 after them, sets the
free-list head to `p` in the header, which is persisted as page 0 of the file, leaves the
magic signature, the page count and the metadata region unchanged, and clears the resident
page number. -/
theorem pf_free_protocol (s : pf) (hp : 0 < s.pageno) (hp2 : s.pageno < 2 ^ 19)
    (hf : (pf_free s).1 = 0) :
    link (pf_free s).2.env s.pageno.toNat = _hfree s ∧
    (∀ i, 4 ≤ i → i < PFPAGESZ →
      (pf_free s).2.env.data (s.pageno.toNat * PFPAGESZ + i) = s.page i) ∧
    s.pageno.toNat * PFPAGESZ + PFPAGESZ ≤ (pf_free s).2.env.size ∧
    (_hfree (pf_free s).2 : Int) = s.pageno ∧
    (∀ i, i < PFPAGESZ → (pf_free s).2.env.data i = (pf_free s).2.hpage i) ∧
    _hmagic (pf_free s).2 = _hmagic s ∧ _npages (pf_free s).2 = _npages s ∧
    (∀ i, PFHDRSZ ≤ i → i < PFPAGESZ → (pf_free s).2.hpage i = s.hpage i) ∧
    (pf_free s).2.pageno = 0 := by
  obtain ⟨_, _, e⟩ := pf_free_ok s hf
  have ho := (pageOff_small s.pageno (by omega) hp2).2
  rw [ho] at e
  rw [e]
  dsimp only
  have hu : toUInt32 s.pageno = s.pageno.toNat := toUInt32_of_range _ (by omega) (by omega)
  rw [hu]
  have hp1 : 1 ≤ s.pageno.toNat := by omega
  refine ⟨?_, ?_, ?_, ?_, ?_, ?_, ?_, ?_, rfl⟩
  · rw [link_wrote_header _ _ _ (by omega) (wrote_size _ _ _), link_wrote_same, ld_st_same]
    exact Nat.mod_eq_of_lt (by have := hfree_lt s; norm_num at this ⊢; omega)
  · intro i hi1 hi2
    have hsz := wrote_size s.env (s.pageno.toNat * PFPAGESZ) (st s.page 0 4 (_hfree s))
    rw [wrote_data_out _ _ _ _ (by rw [PFPAGESZ_eq] at *; omega)
      (by rw [PFPAGESZ_eq] at *; omega), wrote_data_in _ _ _ _ hi2]
    exact st_of_ge _ _ _ _ _ (by omega)
  · exact le_trans (wrote_size _ _ _) (wrote_size_le _ _ _)
  · show ((ld (st s.hpage 8 4 s.pageno.toNat) 8 4 : Nat) : Int) = s.pageno
    rw [ld_st_same, Nat.mod_eq_of_lt (by norm_num; omega)]
    exact Int.toNat_of_nonneg (by omega)
  · intro i hi
    have := wrote_data_in (s.env.wrote (s.pageno.toNat * PFPAGESZ) (st s.page 0 4 (_hfree s)))
      0 (st s.hpage 8 4 s.pageno.toNat) i hi
    rwa [Nat.zero_add] at this
  · exact ld_st_other _ _ _ _ _ _ (by omega)
  · exact ld_st_other _ _ _ _ _ _ (by omega)
  · intro i hi _
    rw [PFHDRSZ_eq] at hi
    exact st_of_ge _ _ _ _ _ (by omega)

theorem _pread_failed (s : pf) (h : (_pread s).1 ≠ 0) :
    (_pread s).2.page = s.page ∧ (_pread s).2.pageno = s.pageno ∧
    (_pread s).2.hpage = s.hpage := by
  unfold _pread at h ⊢
  simp only [] at h ⊢
  split
  · exact ⟨rfl, rfl, rfl⟩
  · rename_i h1
    rw [if_neg h1] at h
    split
    · rename_i h2
      refine ⟨?_, rfl, rfl⟩
      have hq := (read_fst_neg _ _ _).1 h2
      show (read _ s.page PFPAGESZ).2.1 = s.page
      unfold read
      rw [if_pos hq]
    · rename_i h2
      rw [if_neg h2] at h
      exact absurd rfl h

/-- Claim C16 as amended: for every handle state and page number `p > 0`, if the
underlying seek or read fails, `pf_read` returns `NULL`; the page buffer, the header and
the file are the same as before the call, and the resident page number is `p` (it is set
before the transfer and not restored). -/
theorem pf_read_failed (s : pf) (p : Int) (hp : 0 < p)
    (hf : (_pread { s with pageno := p }).1 ≠ 0) :
    (pf_read s p).1 = none ∧ (pf_read s p).2.page = s.page ∧
    (pf_read s p).2.pageno = p ∧ (pf_read s p).2.hpage = s.hpage ∧
    (pf_read s p).2.env.data = s.env.data ∧ (pf_read s p).2.env.size = s.env.size := by
  obtain ⟨h1, h2, h3⟩ := _pread_failed { s with pageno := p } hf
  have hfile := pf_read_file s p
  unfold pf_read at hfile ⊢
  rw [if_neg (not_le.mpr hp)] at hfile ⊢
  simp only [] at hfile ⊢
  rw [if_pos hf] at hfile ⊢
  exact ⟨rfl, h1, h2, h3, hfile.1, hfile.2⟩

/-- Witness for C16 as amended: page 1 is resident and the seek of `pf_read (2)` fails. -/
theorem pf_read_failed_witness :
    (pf_read sevensFault 2).1 = none ∧ (pf_read sevensFault 2).2.page = sevensFault.page ∧
    (pf_read sevensFault 2).2.pageno = 2 :=
  ⟨(pf_read_failed sevensFault 2 (by decide) (by decide)).1,
   (pf_read_failed sevensFault 2 (by decide) (by decide)).2.1,
   (pf_read_failed sevensFault 2 (by decide) (by decide)).2.2.1⟩

/-- Claim C16 refuted at an explicit input: page 1 is resident and the seek of
`pf_read (2)` fails; the call returns `NULL`, but the resident page number is 2 afterwards,
not 1. -/
theorem pf_read_failure_changes_resident :
    sevensFault.pageno = 1 ∧ (_pread { sevensFault with pageno := 2 }).1 = -1 ∧
    (pf_read sevensFault 2).1.isSome = false ∧ (pf_read sevensFault 2).2.pageno = 2 ∧
    ¬ (pf_read sevensFault 2).2.pageno = sevensFault.pageno := by
  decide

/-! ### Free-list well-formedness and double free: claims C19 and C20 -/

theorem WellFormed_of_inv (s : pf) (A : List Int) (h : AllocInv s A) : WellFormed s := by
  obtain ⟨_, _, L, h3, h4, h5⟩ := h
  exact ⟨L, h3, h4, fun p hp => (h5 p hp).1⟩

/-- Free-list well-formedness is preserved while the page count is at most `2^19` (so that
page offsets do not overflow): by any successful `pf_alloc`, and by any successful
`pf_free` whose resident page lies in `[1, page_count)` and is not on the free list. -/
theorem well_formed_preserved (s : pf) (hn : _npages s ≤ 2 ^ 19) (hw : WellFormed s) :
    ((pf_alloc s).1.isSome = true → WellFormed (pf_alloc s).2.2) ∧
    (1 ≤ s.pageno → s.pageno < (_npages s : Int) →
      (∀ L, FreeChain s.env (_hfree s) L → s.pageno.toNat ∉ L) →
      (pf_free s).1 = 0 → WellFormed (pf_free s).2) := by
  obtain ⟨L, h3, h4, h5⟩ := hw
  constructor
  · intro ha
    have hi : AllocInv s [] := by
      refine ⟨hn, ?_, L, h3, h4, ?_⟩
      · intro a ha'; cases ha'
      · intro p hp; exact ⟨h5 p hp, by simp⟩
    exact WellFormed_of_inv _ _ (inv_alloc s [] hi ha).1
  · intro h1 h2 hnl hf
    have hi : AllocInv s [s.pageno] := by
      refine ⟨hn, ?_, L, h3, h4, ?_⟩
      · intro a ha'
        rw [List.mem_singleton] at ha'
        rw [ha']; exact ⟨h1, h2⟩
      · intro p hp
        refine ⟨h5 p hp, ?_⟩
        rw [List.mem_singleton]
        intro hc
        apply hnl L h3
        rw [← hc, Int.toNat_ofNat]
        exact hp
    exact WellFormed_of_inv _ _ (inv_free s [s.pageno] hi (List.mem_singleton.2 rfl) hf)

/-- Claim C19, evaluated at its failing input: the page count is `2^20 + 2`, the free list
is the single page 1, and page `2^20 + 1` (in `[1, page_count)`, not on the free list) is
resident.  Its page offset wraps to 4096, the offset of page 1: the successful `pf_free`
stores the old head 1 over the link of page 1, which now links to itself, and the new head
`2^20 + 1` has no page of its own in the file; the state is no longer well-formed. -/
theorem free_breaks_well_formedness :
    WellFormed wfResident ∧ 1 ≤ wfResident.pageno ∧
    wfResident.pageno < (_npages wfResident : Int) ∧
    (∀ L, FreeChain wfResident.env (_hfree wfResident) L → wfResident.pageno.toNat ∉ L) ∧
    (pf_free wfResident).1 = 0 ∧ ¬ WellFormed (pf_free wfResident).2 ∧
    _hfree (pf_free wfResident).2 = 1048577 ∧ pageOff 1048577 = 4096 ∧
    link (pf_free wfResident).2.env 1 = 1 := by
  have hh : _hfree wfResident = 1 := by decide
  have hl : link wfResident.env 1 = 0 := by decide
  have hc1 : FreeChain wfResident.env 1 [1] := by
    refine ⟨rfl, by decide, by decide, ?_⟩
    rw [hl]
    rfl
  refine ⟨⟨[1], by rw [hh]; exact hc1, by decide, ?_⟩, by decide, by decide, ?_, by decide, ?_,
    by decide, by decide, by decide⟩
  · intro p hp
    rw [List.mem_singleton] at hp
    rw [hp]; decide
  · intro L hc
    rw [hh] at hc
    cases L with
    | nil => exact absurd (show (1 : Nat) = 0 from hc) (by decide)
    | cons p l =>
      obtain ⟨e1, _, _, e4⟩ := hc
      rw [← e1, hl] at e4
      rw [FreeChain_zero _ _ e4, ← e1]
      decide
  · rintro ⟨L, hc, _, _⟩
    have hh2 : _hfree (pf_free wfResident).2 = 1048577 := by decide
    rw [hh2] at hc
    cases L with
    | nil => exact absurd (show (1048577 : Nat) = 0 from hc) (by decide)
    | cons p l =>
      obtain ⟨e1, _, e3, _⟩ := hc
      rw [← e1] at e3
      exact absurd e3 (by decide)

/-- Two consecutive successful `pf_alloc` calls that return the same page number leave the
free-list head at 0: the first call has zero-filled the page, so the second one pops a zero
link (or finds the free list empty). -/
theorem alloc_twice_same (t : pf) (h1 : (pf_alloc t).1.isSome = true)
    (h2 : (pf_alloc (pf_alloc t).2.2).1.isSome = true)
    (h3 : (pf_alloc (pf_alloc t).2.2).2.1 = (pf_alloc t).2.1) :
    _hfree (pf_alloc (pf_alloc t).2.2).2.2 = 0 := by
  obtain ⟨b, _, _, _, _, h0, hsz, hdata⟩ := pf_alloc_zero_core t h1
  generalize (pf_alloc t).2.1 = n at *
  generalize (pf_alloc t).2.2 = u at *
  by_cases hz : toInt32 (_hfree u) = 0
  · obtain ⟨_, _, e⟩ := pf_alloc_ext_ok u hz h2
    rw [e]
    show ld (st u.hpage 4 4 (_npages u + 1)) 8 4 = 0
    rw [ld_st_other _ _ _ _ _ _ (by omega)]
    exact toInt32_eq_zero _ (hfree_lt u) hz
  · obtain ⟨_, _, e⟩ := pf_alloc_pop_ok u hz h2
    rw [e] at h3
    have hq : toInt32 (_hfree u) = n := h3
    rw [hq] at e
    rw [e]
    show ld (st u.hpage 8 4 (ld (u.env.fill (pageOff n).toNat u.page) 0 4)) 8 4 = 0
    have hfill : ld (u.env.fill (pageOff n).toNat u.page) 0 4 = 0 := by
      rw [ld_congr _ (fun _ => 0) 0 4, ld_zero]
      intro j _ hj
      unfold Env.fill
      rw [if_pos (by rw [min_eq_left (by omega)]; rw [PFPAGESZ_eq]; omega)]
      exact hdata j (by rw [PFPAGESZ_eq]; omega)
    rw [hfill, ld_st_same]
    rfl

/-- Claim C20 refuted as stated: there is no handle state and page `p > 0` for which the
double free succeeds, the next two `pf_alloc` calls succeed and both return `p`, and the
free-list head equals `p` after them. -/
theorem double_free_head_not_kept :
    ¬ ∃ (s : pf) (p : Int), 0 < p ∧
      (pf_read s p).1.isSome = true ∧ (pf_free (pf_read s p).2).1 = 0 ∧
      (pf_read (pf_free (pf_read s p).2).2 p).1.isSome = true ∧
      (pf_free (pf_read (pf_free (pf_read s p).2).2 p).2).1 = 0 ∧
      (pf_alloc (doubleFreed s p)).1.isSome = true ∧ (pf_alloc (doubleFreed s p)).2.1 = p ∧
      (pf_alloc (pf_alloc (doubleFreed s p)).2.2).1.isSome = true ∧
      (pf_alloc (pf_alloc (doubleFreed s p)).2.2).2.1 = p ∧
      (_hfree (pf_alloc (pf_alloc (doubleFreed s p)).2.2).2.2 : Int) = p := by
  rintro ⟨s, p, hp, _, _, _, _, a1, a2, a3, a4, a5⟩
  have h := alloc_twice_same (doubleFreed s p) a1 a3 (by rw [a4, a2])
  rw [h] at a5
  have : (0 : Int) = p := by exact_mod_cast a5
  omega

/-- Claim C20 as amended: double free is not detected.  For some handle state and page `p`
(here page 1 of a page file with two allocated pages), reading and freeing `p` twice
succeeds, and the second `pf_free` stores `p` as the free-list link of page `p` itself;
the next two `pf_alloc` calls succeed and both return `p`; the free-list head equals `p`
after the first of them and 0 after the second. -/
theorem double_free_undetected :
    ∃ (s : pf) (p : Int), 0 < p ∧
      (pf_read s p).1.isSome = true ∧ (pf_free (pf_read s p).2).1 = 0 ∧
      (pf_read (pf_free (pf_read s p).2).2 p).1.isSome = true ∧
      (pf_free (pf_read (pf_free (pf_read s p).2).2 p).2).1 = 0 ∧
      (_hfree (doubleFreed s p) : Int) = p ∧
      (link (doubleFreed s p).env p.toNat : Int) = p ∧
      (pf_alloc (doubleFreed s p)).1.isSome = true ∧ (pf_alloc (doubleFreed s p)).2.1 = p ∧
      (_hfree (pf_alloc (doubleFreed s p)).2.2 : Int) = p ∧
      (pf_alloc (pf_alloc (doubleFreed s p)).2.2).1.isSome = true ∧
      (pf_alloc (pf_alloc (doubleFreed s p)).2.2).2.1 = p ∧
      _hfree (pf_alloc (pf_alloc (doubleFreed s p)).2.2).2.2 = 0 :=
  ⟨twoPages, 1, by decide⟩

/-! ### The allocated page in the file: claim C6 -/

/-- A successful `pf_alloc` with a page number `0 < n < 2^19`, whose offset does not
overflow, in every handle state and on either path: the returned buffer is the page buffer
of the handle and consists of `PFPAGESZ` zero bytes, `n` is the resident page number, and
page `n` of the file, at offset `n * PFPAGESZ`, lies inside the file and consists of
`PFPAGESZ` zero bytes. -/
theorem pf_alloc_zero_filled_in_range (s : pf) (h : (pf_alloc s).1.isSome = true)
    (hn0 : 0 < (pf_alloc s).2.1) (hn : (pf_alloc s).2.1 < 2 ^ 19) :
    ∃ b, (pf_alloc s).1 = some b ∧
      (∀ i, i < PFPAGESZ → b i = 0) ∧
      (pf_alloc s).2.2.page = b ∧
      (pf_alloc s).2.2.pageno = (pf_alloc s).2.1 ∧
      (pf_alloc s).2.1.toNat * PFPAGESZ + PFPAGESZ ≤ (pf_alloc s).2.2.env.size ∧
      (∀ i, i < PFPAGESZ →
        (pf_alloc s).2.2.env.data ((pf_alloc s).2.1.toNat * PFPAGESZ + i) = 0) := by
  obtain ⟨b, h1, h2, h3, h4, _, h6, h7⟩ := pf_alloc_zero_core s h
  have ho := (pageOff_small (pf_alloc s).2.1 (by omega) hn).2
  rw [ho] at h6 h7
  exact ⟨b, h1, h2, h3, h4, h6, h7⟩

/-- The statement `pf_alloc_zero_filled_in_range` applied on both paths (file extension at
`primed`, free-list pop at `freedOne`): page 1 of the file, at offset 4096, is zero. -/
theorem pf_alloc_zero_filled_in_range_witness :
    (∃ b, (pf_alloc primed).1 = some b ∧ b 0 = 0 ∧
      (pf_alloc primed).2.2.env.data ((pf_alloc primed).2.1.toNat * PFPAGESZ + 7) = 0) ∧
    (∃ b, (pf_alloc freedOne).1 = some b ∧ b 0 = 0 ∧
      (pf_alloc freedOne).2.2.env.data ((pf_alloc freedOne).2.1.toNat * PFPAGESZ + 7) = 0) := by
  constructor
  · obtain ⟨b, h1, h2, _, _, _, h3⟩ :=
      pf_alloc_zero_filled_in_range primed (by decide) (by decide) (by decide)
    exact ⟨b, h1, h2 0 (by decide), h3 7 (by decide)⟩
  · obtain ⟨b, h1, h2, _, _, _, h3⟩ :=
      pf_alloc_zero_filled_in_range freedOne (by decide) (by decide) (by decide)
    exact ⟨b, h1, h2 0 (by decide), h3 7 (by decide)⟩

/-- Claim C6, evaluated at its failing input: the header records page count `2^20`, the
free list is empty and the file holds the header page only.  `pf_alloc` succeeds with page
number `n = 2^20`, whose page offset wraps to 0: the zero page is written over the header
page of the file (the magic signature on disk becomes 0), the file stays 4096 bytes long,
and it has no byte at offset `n * 4096`, where page `n` belongs. -/
theorem pf_alloc_on_wrapped_page :
    _npages bigCount = 1048576 ∧ _hfree bigCount = 0 ∧
    ld bigCount.env.data 0 4 = PFMAGIC ∧
    (pf_alloc bigCount).1.isSome = true ∧ (pf_alloc bigCount).2.1 = 1048576 ∧
    (pf_alloc bigCount).2.2.pageno = 1048576 ∧ pageOff 1048576 = 0 ∧
    (pf_alloc bigCount).2.2.env.size = PFPAGESZ ∧
    ¬ (1048576 * PFPAGESZ + PFPAGESZ ≤ (pf_alloc bigCount).2.2.env.size) ∧
    ld (pf_alloc bigCount).2.2.env.data 0 4 = 0 := by
  decide

end PageFile
